import Mathlib

/-!
Verification of pkg/sql/opt/optbuilder/mutation_builder.go (mutationBuilder).

This file gives a shallow embedding of the mutation builder's data model and
operations: the role ordinal arrays (insert/fetch/update/upsert/check), the
target column list/set, default/computed expression parsing and caching,
DEFAULT replacement in VALUES clauses, decimal rounding projection, and the
foreign-key check builders (insertion and deletion checks, MATCH SIMPLE /
MATCH FULL null pre-filters, the Except-based deletion input for updates, the
fallback path for cascading reference actions, and the buffered-input WithID).

Conventions of the embedding:
  - a Go scope ordinal is an Int, with -1 playing the role of "unset";
  - column identifiers and table identifiers are naturals, with 0 playing the
    role of Go's zero (invalid) opt.ColumnID;
  - Go panics are modelled as Except.error with a describing message;
  - memo.RelExpr / opt.ScalarExpr trees are modelled by the RelExpr / Scalar
    inductives below, with only the constructors this file's code builds;
  - the metadata column/with-id counters are threaded explicitly through a
    builder state (FKState below); metadata ids of the "other" table of a
    foreign key are identified with the table's stable catalog id.
-/

namespace MutationBuilder

/-- Scope column ordinal; -1 means "unset", matching the Go scopeOrdinal
slices that are initialized to -1. -/
abbrev ScopeOrd := Int

/-- The four per-table-column role ordinal arrays of mutationBuilder
(insertOrds, fetchOrds, updateOrds, upsertOrds). Each entry is either -1 or
the ordinal of the scope column providing the value in that role. -/
structure RoleOrds where
  insertOrds : List ScopeOrd
  fetchOrds : List ScopeOrd
  updateOrds : List ScopeOrd
  upsertOrds : List ScopeOrd

/-- Entry of a role ordinal array at a table column ordinal; out-of-range
reads behave as "unset" (the Go arrays always have one entry per table
column, so in-range claims are unaffected). -/
def ordAt (l : List ScopeOrd) (tabOrd : Nat) : ScopeOrd :=
  l.getD tabOrd (-1)

/-- mutationBuilder.mapToReturnScopeOrd: the ordinal of the scope column that
provides the final value for the table column at tabOrd, with priority
upsert, update, fetch, insert; -1 if the column is referenced by no role. -/
def mapToReturnScopeOrd (ro : RoleOrds) (tabOrd : Nat) : ScopeOrd :=
  if ordAt ro.upsertOrds tabOrd ≠ -1 then ordAt ro.upsertOrds tabOrd
  else if ordAt ro.updateOrds tabOrd ≠ -1 then ordAt ro.updateOrds tabOrd
  else if ordAt ro.fetchOrds tabOrd ≠ -1 then ordAt ro.fetchOrds tabOrd
  else if ordAt ro.insertOrds tabOrd ≠ -1 then ordAt ro.insertOrds tabOrd
  else -1

/-- C1: mapToReturnScopeOrd resolves a table column to the upsert-role entry
if set, otherwise the update-role entry if set, otherwise the fetch-role
entry if set, otherwise the insert-role entry if set; and it returns unset
(-1) if and only if the column is referenced by none of the four roles. -/
theorem mapToReturnScopeOrd_priority (ro : RoleOrds) (tabOrd : Nat) :
    (ordAt ro.upsertOrds tabOrd ≠ -1 →
      mapToReturnScopeOrd ro tabOrd = ordAt ro.upsertOrds tabOrd) ∧
    (ordAt ro.upsertOrds tabOrd = -1 → ordAt ro.updateOrds tabOrd ≠ -1 →
      mapToReturnScopeOrd ro tabOrd = ordAt ro.updateOrds tabOrd) ∧
    (ordAt ro.upsertOrds tabOrd = -1 → ordAt ro.updateOrds tabOrd = -1 →
      ordAt ro.fetchOrds tabOrd ≠ -1 →
      mapToReturnScopeOrd ro tabOrd = ordAt ro.fetchOrds tabOrd) ∧
    (ordAt ro.upsertOrds tabOrd = -1 → ordAt ro.updateOrds tabOrd = -1 →
      ordAt ro.fetchOrds tabOrd = -1 → ordAt ro.insertOrds tabOrd ≠ -1 →
      mapToReturnScopeOrd ro tabOrd = ordAt ro.insertOrds tabOrd) ∧
    (mapToReturnScopeOrd ro tabOrd = -1 ↔
      (ordAt ro.insertOrds tabOrd = -1 ∧ ordAt ro.fetchOrds tabOrd = -1 ∧
       ordAt ro.updateOrds tabOrd = -1 ∧ ordAt ro.upsertOrds tabOrd = -1)) := by
  unfold mapToReturnScopeOrd
  by_cases h1 : ordAt ro.upsertOrds tabOrd = -1 <;>
    by_cases h2 : ordAt ro.updateOrds tabOrd = -1 <;>
      by_cases h3 : ordAt ro.fetchOrds tabOrd = -1 <;>
        by_cases h4 : ordAt ro.insertOrds tabOrd = -1 <;>
          simp [h1, h2, h3, h4]

/-- Witness for C1 at a concrete role array state: column 1 has update and
fetch values set, so the update value (7) wins; column 0 has no role set, so
the resolver reports unset. -/
theorem mapToReturnScopeOrd_priority_witness :
    mapToReturnScopeOrd ⟨[-1, -1], [-1, 3], [-1, 7], [-1, -1]⟩ 1 = 7 ∧
    mapToReturnScopeOrd ⟨[-1, -1], [-1, 3], [-1, 7], [-1, -1]⟩ 0 = -1 :=
  ⟨(mapToReturnScopeOrd_priority ⟨[-1, -1], [-1, 3], [-1, 7], [-1, -1]⟩ 1).2.1
      (by decide) (by decide),
   (mapToReturnScopeOrd_priority ⟨[-1, -1], [-1, 3], [-1, 7], [-1, -1]⟩ 0).2.2.2.2.mpr
      (by decide)⟩

/-! ## Catalog data model (cat.Table, cat.Column, cat.ForeignKeyConstraint) -/

/-- Type family of a column's declared type, as far as findRoundingFunction
distinguishes it (types.T.Equivalent against types.Decimal and
types.DecimalArray). -/
inductive TypeFamily where
  | decimal
  | decimalArray
  | otherFamily
deriving DecidableEq

/-- tree.ReferenceAction of a foreign key (per delete / update). -/
inductive RefAction where
  | noAction
  | restrict
  | cascade
  | setNull
  | setDefault
deriving DecidableEq

/-- tree.CompositeKeyMatchMethod of a foreign key. -/
inductive MatchMethod where
  | simple
  | full
  | matchPartial
deriving DecidableEq

/-- cat.Column: the per-column catalog facts this file reads. isMutation
models cat.IsMutationColumn for the column's ordinal; precision and width
model ColTypePrecision and ColTypeWidth of the declared type. -/
structure TabCol where
  colName : String
  isMutation : Bool
  isComputed : Bool
  hasDefault : Bool
  computedExprStr : String
  defaultExprStr : String
  isNullable : Bool
  typFamily : TypeFamily
  precision : Nat
  width : Nat
deriving DecidableEq

/-- cat.ForeignKeyConstraint: origin/referenced table ids, the column
ordinal pairs (originColOrds i in the origin table corresponds to
referencedColOrds i in the referenced table), the match method, and the
delete/update reference actions. -/
structure ForeignKey where
  originTableID : Nat
  referencedTableID : Nat
  originColOrds : List Nat
  referencedColOrds : List Nat
  matchMethod : MatchMethod
  deleteAction : RefAction
  updateAction : RefAction
deriving DecidableEq

/-- cat.Table: stable id, columns in ordinal order (DeletableColumnCount =
cols.length; the first numPublicCols are the non-mutation columns, i.e.
ColumnCount), and the outbound/inbound foreign keys. -/
structure Table where
  stableID : Nat
  cols : List TabCol
  numPublicCols : Nat
  outboundFKs : List ForeignKey
  inboundFKs : List ForeignKey
deriving DecidableEq

/-! ## addTargetCol (C7) -/

/-- The errors addTargetCol raises: makeBackfillError for mutation columns,
sqlbase.CannotWriteToComputedColError for computed columns, and the
pgcode.Syntax "multiple assignments to the same column" error for
duplicates. -/
inductive TargetColError where
  | protectedColumn (name : String)
  | computedColumnWrite (name : String)
  | duplicateTarget (name : String)
deriving DecidableEq

/-- The targetColList / targetColSet pair of mutationBuilder. The set is
modelled as a list queried by membership (opt.ColSet). Column ids are the
table column ordinals (mb.tabID.ColumnID is injective per table). -/
structure TargetCols where
  targetColList : List Nat
  targetColSet : List Nat
deriving DecidableEq

/-- mutationBuilder.addTargetCol: reject mutation columns, then computed
columns, then duplicates; otherwise add the column id to the target set and
append it to the target list. -/
def addTargetCol (tab : Table) (st : TargetCols) (ord : Nat) :
    Except TargetColError TargetCols :=
  match tab.cols[ord]? with
  | none => .error (.protectedColumn "column ordinal out of range")
  | some tabCol =>
    if tabCol.isMutation then .error (.protectedColumn tabCol.colName)
    else if tabCol.isComputed then .error (.computedColumnWrite tabCol.colName)
    else if ord ∈ st.targetColSet then
      .error (.duplicateTarget tabCol.colName)
    else .ok ⟨st.targetColList ++ [ord], ord :: st.targetColSet⟩

/-- C7: addTargetCol fails with the protected-column error on
storage-engine-managed mutation columns, with the computed-column write
error on computed columns, with the duplicate-target error when the column
id is already in the target set, and otherwise appends the id to both the
list and the set; under the list/set agreement invariant, the target list
stays duplicate-free. -/
theorem addTargetCol_spec (tab : Table) (st : TargetCols) (ord : Nat)
    (c : TabCol) (hc : tab.cols[ord]? = some c)
    (hnodup : st.targetColList.Nodup)
    (hagree : ∀ x, x ∈ st.targetColSet ↔ x ∈ st.targetColList) :
    (c.isMutation = true →
      addTargetCol tab st ord = .error (.protectedColumn c.colName)) ∧
    (c.isMutation = false → c.isComputed = true →
      addTargetCol tab st ord = .error (.computedColumnWrite c.colName)) ∧
    (c.isMutation = false → c.isComputed = false →
      ord ∈ st.targetColSet →
      addTargetCol tab st ord = .error (.duplicateTarget c.colName)) ∧
    (c.isMutation = false → c.isComputed = false →
      ord ∉ st.targetColSet →
      addTargetCol tab st ord =
        .ok ⟨st.targetColList ++ [ord], ord :: st.targetColSet⟩ ∧
      (st.targetColList ++ [ord]).Nodup ∧
      (∀ x, x ∈ ord :: st.targetColSet ↔
        x ∈ st.targetColList ++ [ord])) := by
  refine ⟨?_, ?_, ?_, ?_⟩
  · intro hm
    simp [addTargetCol, hc, hm]
  · intro hm hcomp
    simp [addTargetCol, hc, hm, hcomp]
  · intro hm hcomp hdup
    simp [addTargetCol, hc, hm, hcomp, hdup]
  · intro hm hcomp hdup
    refine ⟨by simp [addTargetCol, hc, hm, hcomp, hdup], ?_, ?_⟩
    · have hord : ord ∉ st.targetColList := fun hmem =>
        hdup ((hagree ord).mpr hmem)
      simpa [List.nodup_append] using ⟨hnodup, hord⟩
    · intro x
      rw [List.mem_cons, List.mem_append, List.mem_singleton, hagree x]
      tauto

/-- Witness for C7: on a two-column table, adding target column 1 to an
empty target state succeeds and keeps the list duplicate-free. -/
theorem addTargetCol_spec_witness :
    addTargetCol ⟨1, [⟨"a", false, false, false, "", "", true, .otherFamily, 0, 0⟩,
        ⟨"b", false, false, false, "", "", true, .otherFamily, 0, 0⟩], 2, [], []⟩
      ⟨[], []⟩ 1 = .ok ⟨[1], [1]⟩ ∧ ([] ++ [1] : List Nat).Nodup := by
  have h := (addTargetCol_spec
    ⟨1, [⟨"a", false, false, false, "", "", true, .otherFamily, 0, 0⟩,
        ⟨"b", false, false, false, "", "", true, .otherFamily, 0, 0⟩], 2, [], []⟩
    ⟨[], []⟩ 1 ⟨"b", false, false, false, "", "", true, .otherFamily, 0, 0⟩
    (by rfl) (by simp) (by simp)).2.2.2 rfl rfl (by simp)
  exact ⟨by simpa using h.1, h.2.1⟩

/-! ## tree expressions, parseDefaultOrComputedExpr (C10) and
replaceDefaultExprs (C8) -/

/-- tree.Expr, as far as this file manipulates it: the DEFAULT specifier
(tree.DefaultVal), the NULL literal (tree.DNull), the syntactic result of
parser.ParseExpr on a stored expression text, and any other expression
(abstracted by a tag). Parsing is purely syntactic: parseExpr s is a
constructor application, never an evaluation. -/
inductive Expr where
  | defaultVal
  | dNull
  | parsed (s : String)
  | otherExpr (tag : Nat)
deriving DecidableEq

/-- parser.ParseExpr, abstracted: a deterministic syntactic embedding of the
expression text (parse errors are out of scope for the claims settled
here, so the abstract parser is total). -/
def parseExpr (s : String) : Expr := .parsed s

/-- The mb.parsedExprs cache: one optional parsed expression per table
column ordinal (the Go slice holds nil for not-yet-parsed entries). -/
abbrev ParseCache := Nat → Option Expr

/-- mutationBuilder.parseDefaultOrComputedExpr: return the cached parse if
present; otherwise pick the computed expression text if the column is
computed, else the default expression text if it has a default, else return
the NULL literal without caching; parse the chosen text and cache it. -/
def parseDefaultOrComputedExpr (tab : Table) (cache : ParseCache) (ord : Nat) :
    Expr × ParseCache :=
  match cache ord with
  | some e => (e, cache)
  | none =>
    match tab.cols[ord]? with
    | none => (.dNull, cache)
    | some tabCol =>
      if tabCol.isComputed then
        let e := parseExpr tabCol.computedExprStr
        (e, fun i => if i = ord then some e else cache i)
      else if tabCol.hasDefault then
        let e := parseExpr tabCol.defaultExprStr
        (e, fun i => if i = ord then some e else cache i)
      else (.dNull, cache)

/-- The value parseDefaultOrComputedExpr computes for a column when the
cache has no entry for it yet. -/
def pureDefaultOrComputedExpr (tab : Table) (ord : Nat) : Expr :=
  match tab.cols[ord]? with
  | none => .dNull
  | some tabCol =>
    if tabCol.isComputed then parseExpr tabCol.computedExprStr
    else if tabCol.hasDefault then parseExpr tabCol.defaultExprStr
    else .dNull

/-- A cache is valid when every entry it holds is the expression the column
would parse to: the state invariant of mb.parsedExprs. -/
def CacheValid (tab : Table) (cache : ParseCache) : Prop :=
  ∀ ord e, cache ord = some e → e = pureDefaultOrComputedExpr tab ord

mutual
/-- tree.Select, as far as extractValuesInput inspects it: the presence of
WITH, ORDER BY and LIMIT modifiers, and the wrapped select variant. -/
inductive SelectStmt where
  | mk (hasWith hasOrderBy hasLimit : Bool) (sel : SelectVariant)
/-- tree.SelectStatement: a VALUES clause, a parenthesized select, or any
other statement (abstracted by a tag). -/
inductive SelectVariant where
  | valuesClause (rows : List (List Expr))
  | parenSelect (s : SelectStmt)
  | otherStmt (tag : Nat)
end

/-- mutationBuilder.extractValuesInput on a non-nil select: a VALUES clause
is extracted only when no WITH / ORDER BY / LIMIT modifier is present,
unwrapping parentheses recursively. -/
def extractValuesFromSelect : SelectStmt → Option (List (List Expr))
  | .mk hasWith hasOrderBy hasLimit sel =>
    if hasWith || hasOrderBy || hasLimit then none
    else
      match sel with
      | .valuesClause rows => some rows
      | .parenSelect s => extractValuesFromSelect s
      | .otherStmt _ => none

/-- mutationBuilder.extractValuesInput, including the nil-input case. -/
def extractValuesInput : Option SelectStmt → Option (List (List Expr))
  | none => none
  | some s => extractValuesFromSelect s

/-- The inner loop of replaceDefaultExprs over one VALUES tuple: each
DEFAULT specifier at position i is replaced by the parsed default or
computed expression of the target column at position i (targets.getD i 0 is
mb.targetColList[itup]); other expressions pass through unchanged. Returns
the new tuple, the threaded parse cache, and whether any DEFAULT was seen
(the Go code's lazy newTuple allocation). -/
def replaceVals (tab : Table) (targets : List Nat) :
    ParseCache → List Expr → Nat → List Expr × ParseCache × Bool
  | cache, [], _ => ([], cache, false)
  | cache, v :: rest, i =>
    match v with
    | .defaultVal =>
      let p := parseDefaultOrComputedExpr tab cache (targets.getD i 0)
      let r := replaceVals tab targets p.2 rest (i + 1)
      (p.1 :: r.1, r.2.1, true)
    | _ =>
      let r := replaceVals tab targets cache rest (i + 1)
      (v :: r.1, r.2.1, r.2.2)

/-- The row loop of replaceDefaultExprs: each tuple must have exactly
numCols expressions (reportValuesLenError otherwise), the parse cache is
threaded through the tuples in order, and the Bool records whether any
DEFAULT was replaced in any row (the Go code's lazy newRows allocation). -/
def replaceRows (tab : Table) (targets : List Nat) (numCols : Nat)
    (cache : ParseCache) :
    List (List Expr) → Except String (List (List Expr) × ParseCache × Bool)
  | [] => .ok ([], cache, false)
  | tuple :: rest =>
    if tuple.length ≠ numCols then
      .error "wrong number of values in tuple"
    else
      let r := replaceVals tab targets cache tuple 0
      match replaceRows tab targets numCols r.2.1 rest with
      | .error e => .error e
      | .ok (rest', cache', changed) =>
        .ok (r.1 :: rest', cache', r.2.2 || changed)

/-- mutationBuilder.replaceDefaultExprs: extract a simple VALUES input (or
return the input unchanged), check the arity of the first row against the
target column list (mb.checkNumCols), replace DEFAULT specifiers row by
row, and return a fresh simple VALUES select if anything was replaced,
otherwise the unchanged input. The Go code reads values.Rows[0], so an
empty row list is an out-of-range panic. -/
def replaceDefaultExprs (tab : Table) (targets : List Nat)
    (cache : ParseCache) (inRows : Option SelectStmt) :
    Except String (Option SelectStmt × ParseCache) :=
  match extractValuesInput inRows with
  | none => .ok (inRows, cache)
  | some rows =>
    match rows with
    | [] => .error "index out of range"
    | tuple₀ :: _ =>
      let numCols := tuple₀.length
      if targets.length ≠ numCols then
        .error "mismatched expressions and target columns"
      else
        match replaceRows tab targets numCols cache rows with
        | .error e => .error e
        | .ok (rows', cache', changed) =>
          if changed then
            .ok (some (.mk false false false (.valuesClause rows')), cache')
          else .ok (inRows, cache')

/-- Under a valid cache the expression returned by parseDefaultOrComputedExpr
is the column's parse value. -/
lemma parse_fst_of_valid (tab : Table) (cache : ParseCache) (ord : Nat)
    (hv : CacheValid tab cache) :
    (parseDefaultOrComputedExpr tab cache ord).1 =
      pureDefaultOrComputedExpr tab ord := by
  unfold parseDefaultOrComputedExpr
  cases hcache : cache ord with
  | some e => simpa using hv ord e hcache
  | none =>
    unfold pureDefaultOrComputedExpr
    cases hcol : tab.cols[ord]? with
    | none => simp
    | some c =>
      by_cases h1 : c.isComputed <;> by_cases h2 : c.hasDefault <;>
        simp [h1, h2]

/-- Updating a valid cache with a column's own parse value keeps it valid. -/
lemma cacheValid_update (tab : Table) (cache : ParseCache) (ord : Nat)
    (e : Expr) (hv : CacheValid tab cache)
    (he : e = pureDefaultOrComputedExpr tab ord) :
    CacheValid tab (fun i => if i = ord then some e else cache i) := by
  intro o e' ho
  have ho2 : (if o = ord then some e else cache o) = some e' := ho
  by_cases h : o = ord
  · subst h
    rw [if_pos rfl] at ho2
    cases ho2
    exact he
  · rw [if_neg h] at ho2
    exact hv o e' ho2

/-- parseDefaultOrComputedExpr preserves cache validity. -/
lemma parse_snd_of_valid (tab : Table) (cache : ParseCache) (ord : Nat)
    (hv : CacheValid tab cache) :
    CacheValid tab (parseDefaultOrComputedExpr tab cache ord).2 := by
  unfold parseDefaultOrComputedExpr
  cases hcache : cache ord with
  | some e => simpa using hv
  | none =>
    cases hcol : tab.cols[ord]? with
    | none => simpa using hv
    | some c =>
      by_cases h1 : c.isComputed
      · simp only [h1, if_true]
        exact cacheValid_update tab cache ord _ hv
          (by simp [pureDefaultOrComputedExpr, hcol, h1])
      · by_cases h2 : c.hasDefault
        · simp only [h1, h2, if_true, Bool.false_eq_true, if_false]
          exact cacheValid_update tab cache ord _ hv
            (by simp [pureDefaultOrComputedExpr, hcol, h1, h2])
        · simpa [h1, h2] using hv

/-- A cached column is returned as-is: the cache is read before any parse,
and the state is unchanged. -/
lemma parse_cache_hit (tab : Table) (cache : ParseCache) (ord : Nat)
    (e : Expr) (hcache : cache ord = some e) :
    parseDefaultOrComputedExpr tab cache ord = (e, cache) := by
  unfold parseDefaultOrComputedExpr
  simp [hcache]

/-- A cache entry survives any parseDefaultOrComputedExpr call (for the same
or another column). -/
lemma parse_cache_mono (tab : Table) (cache : ParseCache) (ord ord' : Nat)
    (e : Expr) (hcache : cache ord = some e) :
    (parseDefaultOrComputedExpr tab cache ord').2 ord = some e := by
  unfold parseDefaultOrComputedExpr
  cases hcache' : cache ord' with
  | some e' => simpa using hcache
  | none =>
    cases hcol : tab.cols[ord']? with
    | none => simpa using hcache
    | some c =>
      have hne : ord ≠ ord' := fun h => by
        rw [h, hcache'] at hcache
        exact Option.noConfusion hcache
      by_cases h1 : c.isComputed <;> by_cases h2 : c.hasDefault <;>
        simp [h1, h2, hne, hcache]

/-- C10: a table column that is neither computed nor has a default parses to
the SQL NULL literal (so a DEFAULT specifier for it is replaced by NULL, as
the replaceVals conjunct shows); for computed or defaulted columns the
stored expression text is parsed once and cached, the cached entry is
returned unchanged by every later call for the column, and cache entries
survive calls for other columns. -/
theorem parseDefaultOrComputedExpr_spec (tab : Table) (cache : ParseCache)
    (ord : Nat) (c : TabCol) (hc : tab.cols[ord]? = some c)
    (hv : CacheValid tab cache) :
    (c.isComputed = false → c.hasDefault = false →
      parseDefaultOrComputedExpr tab cache ord = (.dNull, cache)) ∧
    (c.isComputed = false → c.hasDefault = false →
      replaceVals tab [ord] cache [.defaultVal] 0 = ([.dNull], cache, true)) ∧
    (cache ord = none → (c.isComputed = true ∨ c.hasDefault = true) →
      (parseDefaultOrComputedExpr tab cache ord).2 ord =
        some (pureDefaultOrComputedExpr tab ord)) ∧
    (∀ e, cache ord = some e →
      parseDefaultOrComputedExpr tab cache ord = (e, cache)) ∧
    (∀ ord' e, cache ord = some e →
      (parseDefaultOrComputedExpr tab cache ord').2 ord = some e) := by
  refine ⟨?_, ?_, ?_, ?_, ?_⟩
  · intro h1 h2
    cases hcache : cache ord with
    | some e =>
      have he : e = pureDefaultOrComputedExpr tab ord := hv ord e hcache
      have : pureDefaultOrComputedExpr tab ord = .dNull := by
        simp [pureDefaultOrComputedExpr, hc, h1, h2]
      rw [parse_cache_hit tab cache ord e hcache, he, this]
    | none =>
      unfold parseDefaultOrComputedExpr
      simp [hcache, hc, h1, h2]
  · intro h1 h2
    have hstep : parseDefaultOrComputedExpr tab cache ord = (.dNull, cache) := by
      cases hcache : cache ord with
      | some e =>
        have he : e = pureDefaultOrComputedExpr tab ord := hv ord e hcache
        have : pureDefaultOrComputedExpr tab ord = .dNull := by
          simp [pureDefaultOrComputedExpr, hc, h1, h2]
        rw [parse_cache_hit tab cache ord e hcache, he, this]
      | none =>
        unfold parseDefaultOrComputedExpr
        simp [hcache, hc, h1, h2]
    simp [replaceVals, hstep]
  · intro hnone hcd
    unfold parseDefaultOrComputedExpr
    rcases hcd with h | h <;>
      simp [hnone, hc, h, pureDefaultOrComputedExpr] <;>
      by_cases h2 : c.isComputed <;> simp [h2]
  · exact fun e he => parse_cache_hit tab cache ord e he
  · exact fun ord' e he => parse_cache_mono tab cache ord ord' e he

/-- Witness for C10 on a one-column table whose column has default text
"3": the first call on an empty cache stores the parse, and a later call
returns the cached expression unchanged. -/
theorem parseDefaultOrComputedExpr_spec_witness :
    (parseDefaultOrComputedExpr
      ⟨1, [⟨"a", false, false, true, "", "3", true, .otherFamily, 0, 0⟩],
        1, [], []⟩ (fun _ => none) 0).2 0 = some (.parsed "3") :=
  (parseDefaultOrComputedExpr_spec
      ⟨1, [⟨"a", false, false, true, "", "3", true, .otherFamily, 0, 0⟩],
        1, [], []⟩ (fun _ => none) 0
      ⟨"a", false, false, true, "", "3", true, .otherFamily, 0, 0⟩
      (by rfl) (fun o e h => Option.noConfusion h)).2.2.1 rfl (Or.inr rfl)

/-- Specification-side description of DEFAULT replacement in one tuple, for
comparison with the source translation replaceVals: the entry at position i
becomes the parsed default or computed expression of the target column at
position i when it is the DEFAULT specifier, and is untouched otherwise. -/
def replaceTupleSpec (tab : Table) (targets : List Nat) :
    List Expr → Nat → List Expr
  | [], _ => []
  | v :: rest, i =>
    (if v = .defaultVal then pureDefaultOrComputedExpr tab (targets.getD i 0)
     else v) :: replaceTupleSpec tab targets rest (i + 1)

/-- A tuple without DEFAULT specifiers passes through replaceVals unchanged,
with the cache untouched and no change reported. -/
lemma replaceVals_nodefault (tab : Table) (targets : List Nat) :
    ∀ (tuple : List Expr) (cache : ParseCache) (i : Nat),
      Expr.defaultVal ∉ tuple →
      replaceVals tab targets cache tuple i = (tuple, cache, false) := by
  intro tuple
  induction tuple with
  | nil => intro cache i _; rfl
  | cons v rest ih =>
    intro cache i h
    have hv : v ≠ .defaultVal := fun hq => h (hq ▸ List.mem_cons_self v rest)
    have hrest : Expr.defaultVal ∉ rest := fun hq => h (List.mem_cons_of_mem v hq)
    cases v with
    | defaultVal => exact absurd rfl hv
    | dNull => simp [replaceVals, ih cache (i + 1) hrest]
    | parsed s => simp [replaceVals, ih cache (i + 1) hrest]
    | otherExpr t => simp [replaceVals, ih cache (i + 1) hrest]

/-- The change flag of replaceVals is exactly "the tuple holds a DEFAULT
specifier". -/
lemma replaceVals_chg (tab : Table) (targets : List Nat) :
    ∀ (tuple : List Expr) (cache : ParseCache) (i : Nat),
      (replaceVals tab targets cache tuple i).2.2 =
        tuple.contains Expr.defaultVal := by
  intro tuple
  induction tuple with
  | nil => intro cache i; rfl
  | cons v rest ih =>
    intro cache i
    cases v with
    | defaultVal => simp [replaceVals, List.contains_cons]
    | dNull => simp [replaceVals, List.contains_cons, ih cache (i + 1)]
    | parsed s => simp [replaceVals, List.contains_cons, ih cache (i + 1)]
    | otherExpr t => simp [replaceVals, List.contains_cons, ih cache (i + 1)]

/-- Under a valid cache, replaceVals produces exactly the specification-side
replacement of the tuple and keeps the cache valid. -/
lemma replaceVals_spec (tab : Table) (targets : List Nat) :
    ∀ (tuple : List Expr) (cache : ParseCache) (i : Nat),
      CacheValid tab cache →
      (replaceVals tab targets cache tuple i).1 =
        replaceTupleSpec tab targets tuple i ∧
      CacheValid tab (replaceVals tab targets cache tuple i).2.1 := by
  intro tuple
  induction tuple with
  | nil => intro cache i hv; exact ⟨rfl, hv⟩
  | cons v rest ih =>
    intro cache i hv
    cases v with
    | defaultVal =>
      have hfst := parse_fst_of_valid tab cache (targets.getD i 0) hv
      have hsnd := parse_snd_of_valid tab cache (targets.getD i 0) hv
      have hrest := ih (parseDefaultOrComputedExpr tab cache
        (targets.getD i 0)).2 (i + 1) hsnd
      refine ⟨?_, ?_⟩
      · show (parseDefaultOrComputedExpr tab cache (targets.getD i 0)).1 ::
          (replaceVals tab targets (parseDefaultOrComputedExpr tab cache
            (targets.getD i 0)).2 rest (i + 1)).1 =
          replaceTupleSpec tab targets (Expr.defaultVal :: rest) i
        rw [replaceTupleSpec, if_pos rfl, hfst, hrest.1]
      · show CacheValid tab (replaceVals tab targets
          (parseDefaultOrComputedExpr tab cache (targets.getD i 0)).2 rest
          (i + 1)).2.1
        exact hrest.2
    | dNull =>
      have hrest := ih cache (i + 1) hv
      exact ⟨by simp [replaceVals, replaceTupleSpec, hrest.1],
        by simpa [replaceVals] using hrest.2⟩
    | parsed s =>
      have hrest := ih cache (i + 1) hv
      exact ⟨by simp [replaceVals, replaceTupleSpec, hrest.1],
        by simpa [replaceVals] using hrest.2⟩
    | otherExpr t =>
      have hrest := ih cache (i + 1) hv
      exact ⟨by simp [replaceVals, replaceTupleSpec, hrest.1],
        by simpa [replaceVals] using hrest.2⟩

/-- A DEFAULT-free row list passes through the row loop unchanged, with the
cache untouched and no change reported. -/
lemma replaceRows_nodefault (tab : Table) (targets : List Nat) (numCols : Nat) :
    ∀ (rows : List (List Expr)) (cache : ParseCache),
      (∀ t ∈ rows, t.length = numCols) →
      (∀ t ∈ rows, Expr.defaultVal ∉ t) →
      replaceRows tab targets numCols cache rows = .ok (rows, cache, false) := by
  intro rows
  induction rows with
  | nil => intro cache _ _; rfl
  | cons tuple rest ih =>
    intro cache hlen hnd
    have h1 : tuple.length = numCols := hlen tuple (List.mem_cons_self _ _)
    have h2 : Expr.defaultVal ∉ tuple := hnd tuple (List.mem_cons_self _ _)
    have hrest := ih cache (fun t ht => hlen t (List.mem_cons_of_mem _ ht))
      (fun t ht => hnd t (List.mem_cons_of_mem _ ht))
    simp [replaceRows, h1, replaceVals_nodefault tab targets tuple cache 0 h2,
      hrest]

/-- Under a valid cache, the row loop succeeds on well-arity rows, maps each
tuple through the specification-side replacement, keeps the cache valid and
reports whether any tuple held a DEFAULT specifier. -/
lemma replaceRows_spec (tab : Table) (targets : List Nat) (numCols : Nat) :
    ∀ (rows : List (List Expr)) (cache : ParseCache),
      CacheValid tab cache →
      (∀ t ∈ rows, t.length = numCols) →
      ∃ cache', replaceRows tab targets numCols cache rows =
          .ok (rows.map (fun t => replaceTupleSpec tab targets t 0), cache',
            rows.any (fun t => t.contains Expr.defaultVal)) ∧
        CacheValid tab cache' := by
  intro rows
  induction rows with
  | nil => intro cache hv _; exact ⟨cache, rfl, hv⟩
  | cons tuple rest ih =>
    intro cache hv hlen
    have h1 : tuple.length = numCols := hlen tuple (List.mem_cons_self _ _)
    have hval := replaceVals_spec tab targets tuple cache 0 hv
    have hchg := replaceVals_chg tab targets tuple cache 0
    obtain ⟨cache', hrest, hv'⟩ := ih (replaceVals tab targets cache tuple 0).2.1
      hval.2 (fun t ht => hlen t (List.mem_cons_of_mem _ ht))
    refine ⟨cache', ?_, hv'⟩
    simp [replaceRows, h1, hrest, hval.1, hchg]

/-- One-step equation for replaceDefaultExprs when the input extracts to a
nonempty VALUES row list. -/
lemma replaceDefaultExprs_eq_cons (tab : Table) (targets : List Nat)
    (cache : ParseCache) (inRows : Option SelectStmt) (tuple₀ : List Expr)
    (rest : List (List Expr))
    (hsome : extractValuesInput inRows = some (tuple₀ :: rest)) :
    replaceDefaultExprs tab targets cache inRows =
      (if targets.length ≠ tuple₀.length then
        .error "mismatched expressions and target columns"
      else
        match replaceRows tab targets tuple₀.length cache (tuple₀ :: rest) with
        | .error e => .error e
        | .ok (rows', cache', changed) =>
          if changed then
            .ok (some (.mk false false false (.valuesClause rows')), cache')
          else .ok (inRows, cache')) := by
  unfold replaceDefaultExprs
  rw [hsome]

/-- C8: replaceDefaultExprs leaves any input that is not a simple VALUES
clause unchanged; on a simple VALUES clause of the right arity, a
DEFAULT-free input round-trips to the identical input, and otherwise each
DEFAULT specifier at tuple position i is replaced, purely syntactically, by
the parsed default or computed expression of the i-th target column,
yielding a fresh modifier-free VALUES select. -/
theorem replaceDefaultExprs_spec (tab : Table) (targets : List Nat)
    (cache : ParseCache) (inRows : Option SelectStmt)
    (hv : CacheValid tab cache) :
    (extractValuesInput inRows = none →
      replaceDefaultExprs tab targets cache inRows = .ok (inRows, cache)) ∧
    (∀ rows, extractValuesInput inRows = some rows → rows ≠ [] →
      (∀ t ∈ rows, t.length = targets.length) →
      ((∀ t ∈ rows, Expr.defaultVal ∉ t) →
        replaceDefaultExprs tab targets cache inRows = .ok (inRows, cache)) ∧
      ((∃ t ∈ rows, Expr.defaultVal ∈ t) →
        ∃ cache', replaceDefaultExprs tab targets cache inRows =
          .ok (some (.mk false false false (.valuesClause
            (rows.map (fun t => replaceTupleSpec tab targets t 0)))),
            cache'))) := by
  constructor
  · intro hnone
    simp [replaceDefaultExprs, hnone]
  · intro rows hsome hne hlen
    obtain ⟨tuple₀, rest, hrows⟩ : ∃ t r, rows = t :: r := by
      cases rows with
      | nil => exact absurd rfl hne
      | cons t r => exact ⟨t, r, rfl⟩
    subst hrows
    have h0 : tuple₀.length = targets.length :=
      hlen tuple₀ (List.mem_cons_self _ _)
    have heq := replaceDefaultExprs_eq_cons tab targets cache inRows tuple₀
      rest hsome
    constructor
    · intro hnd
      have hrr := replaceRows_nodefault tab targets tuple₀.length
        (tuple₀ :: rest) cache (by intro t ht; rw [hlen t ht, h0]) hnd
      rw [heq, if_neg (by omega), hrr]
      rfl
    · intro hd
      obtain ⟨cache', hrr, _⟩ := replaceRows_spec tab targets tuple₀.length
        (tuple₀ :: rest) cache hv (by intro t ht; rw [hlen t ht, h0])
      have hany : ((tuple₀ :: rest).any
          (fun t => t.contains Expr.defaultVal)) = true := by
        obtain ⟨t, ht, hdt⟩ := hd
        refine List.any_eq_true.mpr ⟨t, ht, ?_⟩
        exact List.contains_eq_any_beq t Expr.defaultVal ▸
          List.any_eq_true.mpr ⟨Expr.defaultVal, hdt, by simp⟩
      refine ⟨cache', ?_⟩
      rw [heq, if_neg (by omega), hrr, hany]
      simp

/-- Witness for C8 on a concrete insert: the tuple (DEFAULT, 5) with target
columns (a, b) where a has default text "7" becomes (parse "7", 5); and a
select with a LIMIT modifier is returned unchanged. -/
theorem replaceDefaultExprs_spec_witness :
    (∃ cache', replaceDefaultExprs
      ⟨1, [⟨"a", false, false, true, "", "7", true, .otherFamily, 0, 0⟩,
           ⟨"b", false, false, false, "", "", true, .otherFamily, 0, 0⟩],
        2, [], []⟩ [0, 1] (fun _ => none)
      (some (.mk false false false
        (.valuesClause [[.defaultVal, .otherExpr 5]]))) =
      .ok (some (.mk false false false (.valuesClause
        ([[.defaultVal, .otherExpr 5]].map (fun t => replaceTupleSpec
          ⟨1, [⟨"a", false, false, true, "", "7", true, .otherFamily, 0, 0⟩,
               ⟨"b", false, false, false, "", "", true, .otherFamily, 0, 0⟩],
            2, [], []⟩ [0, 1] t 0)))), cache')) :=
  ((replaceDefaultExprs_spec
      ⟨1, [⟨"a", false, false, true, "", "7", true, .otherFamily, 0, 0⟩,
           ⟨"b", false, false, false, "", "", true, .otherFamily, 0, 0⟩],
        2, [], []⟩ [0, 1] (fun _ => none)
      (some (.mk false false false
        (.valuesClause [[.defaultVal, .otherExpr 5]])))
      (fun o e h => Option.noConfusion h)).2
    [[.defaultVal, .otherExpr 5]] rfl (by simp) (by simp)).2
    ⟨[.defaultVal, .otherExpr 5], by simp, by simp⟩

/-! ## Scalar expressions, scope columns, and roundDecimalValues (C9) -/

/-- opt scalar expressions, with only the constructors this file's code
builds: Variable, ConstVal, NullSingleton, Function, IsNot, Or, Eq. -/
inductive Scalar where
  | varE (c : Nat)
  | constInt (n : Int)
  | nullE
  | fnCall (name : String) (args : List Scalar)
  | isNot (a b : Scalar)
  | orE (a b : Scalar)
  | eqE (a b : Scalar)

/-- A column of the working scope: its metadata id and the scalar expression
projected for it. -/
structure ScopeCol where
  id : Nat
  scalar : Scalar

/-- findRoundingFunction: the overload index of
crdb_internal.round_decimal_values needed for the given type, or none when
the precision is unlimited (0) or the type is not DECIMAL / DECIMAL[]. -/
def findRoundingFunction (typ : TypeFamily) (precision : Nat) : Option Nat :=
  if precision = 0 then none
  else
    match typ with
    | .decimal => some 0
    | .decimalArray => some 1
    | .otherFamily => none

/-- One iteration of the roundDecimalValues loop, at table ordinal i with
role entry ord: skip unmutated columns (ord = -1), columns on the wrong
side of the computed/non-computed pass, and columns with no rounding
function; otherwise replace the scope column at ord with a call
round_decimal_values(Variable(col id), width), the width being the declared
scale. The out-of-range arms cannot be reached by the builder, whose ords
array has one entry per table column. -/
def roundDecimalStep (tab : Table) (roundComputedCols : Bool) (i : Nat)
    (ord : ScopeOrd) (scopeCols : List ScopeCol) : List ScopeCol :=
  if ord = -1 then scopeCols
  else
    match tab.cols[i]? with
    | none => scopeCols
    | some col =>
      if col.isComputed != roundComputedCols then scopeCols
      else
        match findRoundingFunction col.typFamily col.precision with
        | none => scopeCols
        | some _ =>
          match scopeCols[ord.toNat]? with
          | none => scopeCols
          | some sc =>
            scopeCols.set ord.toNat
              ⟨sc.id, .fnCall "crdb_internal.round_decimal_values"
                [.varE sc.id, .constInt col.width]⟩

/-- The loop of roundDecimalValues over the role ordinal array, with i the
table column ordinal of the list head. -/
def roundDecimalLoop (tab : Table) (roundComputedCols : Bool) :
    Nat → List ScopeOrd → List ScopeCol → List ScopeCol
  | _, [], scopeCols => scopeCols
  | i, ord :: rest, scopeCols =>
    roundDecimalLoop tab roundComputedCols (i + 1) rest
      (roundDecimalStep tab roundComputedCols i ord scopeCols)

/-- mutationBuilder.roundDecimalValues: one pass over the mutated columns of
the given role ordinal array. -/
def roundDecimalValues (tab : Table) (ords : List ScopeOrd)
    (roundComputedCols : Bool) (scopeCols : List ScopeCol) : List ScopeCol :=
  roundDecimalLoop tab roundComputedCols 0 ords scopeCols

/-- Modelled from the spec: the drivers of roundDecimalValues (the insert,
update and upsert builders, which are outside this repository slice) run
the projector twice over the mutated columns, first with
roundComputedCols=false (non-computed columns) and then with
roundComputedCols=true (computed columns), in that order. -/
def roundDecimalValuesTwice (tab : Table) (ords : List ScopeOrd)
    (scopeCols : List ScopeCol) : List ScopeCol :=
  roundDecimalValues tab ords true (roundDecimalValues tab ords false scopeCols)

/-- Role ordinal arrays whose set entries are pairwise distinct (the builder
maps distinct table columns to distinct scope columns). -/
def DistinctOrds (ords : List ScopeOrd) : Prop :=
  ∀ a b oa ob, ords.get? a = some oa → ords.get? b = some ob →
    oa ≠ -1 → oa = ob → a = b

/-- A rounding step leaves every scope position other than its own target
untouched. -/
lemma roundDecimalStep_other (tab : Table) (rcc : Bool) (i : Nat)
    (ord : ScopeOrd) (scopeCols : List ScopeCol) (j : Nat)
    (hj : ord = -1 ∨ ord.toNat ≠ j) :
    (roundDecimalStep tab rcc i ord scopeCols)[j]? = scopeCols[j]? := by
  unfold roundDecimalStep
  rcases hj with hj | hj
  · simp [hj]
  · by_cases h1 : ord = -1
    · simp [h1]
    · simp only [h1, if_false]
      cases tab.cols[i]? with
      | none => rfl
      | some col =>
        by_cases h2 : col.isComputed != rcc
        · simp [h2]
        · simp only [h2, Bool.false_eq_true, if_false]
          cases findRoundingFunction col.typFamily col.precision with
          | none => rfl
          | some k =>
            cases hsc : scopeCols[ord.toNat]? with
            | none => rfl
            | some sc => simp [List.getElem?_set_ne hj]

/-- The loop leaves positions that are no set entry's target untouched. -/
lemma roundDecimalLoop_other (tab : Table) (rcc : Bool) :
    ∀ (ords : List ScopeOrd) (i : Nat) (scopeCols : List ScopeCol) (j : Nat),
      (∀ k ord, ords.get? k = some ord → ord ≠ -1 → ord.toNat ≠ j) →
      (roundDecimalLoop tab rcc i ords scopeCols)[j]? = scopeCols[j]? := by
  intro ords
  induction ords with
  | nil => intro i scopeCols j _; rfl
  | cons ord rest ih =>
    intro i scopeCols j hk
    have h0 : ord = -1 ∨ ord.toNat ≠ j := by
      by_cases h : ord = -1
      · exact Or.inl h
      · exact Or.inr (hk 0 ord rfl h)
    rw [roundDecimalLoop, ih (i + 1) _ j
      (fun k o hko ho => hk (k + 1) o hko ho),
      roundDecimalStep_other tab rcc i ord scopeCols j h0]

/-- Role ordinal arrays whose entries are -1 or nonnegative (the only values
the builder ever stores). -/
def NonNegOrds (ords : List ScopeOrd) : Prop :=
  ∀ k o, ords.get? k = some o → o = -1 ∨ 0 ≤ o

lemma distinctOrds_tail {o : ScopeOrd} {rest : List ScopeOrd}
    (h : DistinctOrds (o :: rest)) : DistinctOrds rest := by
  intro a b oa ob ha hb hne hq
  have := h (a + 1) (b + 1) oa ob ha hb hne hq
  omega

lemma nonNegOrds_tail {o : ScopeOrd} {rest : List ScopeOrd}
    (h : NonNegOrds (o :: rest)) : NonNegOrds rest :=
  fun k o' hk => h (k + 1) o' hk

/-- Two set, nonnegative entries of a distinct role array at different
positions have different scope targets. -/
lemma distinctOrds_toNat_ne {ords : List ScopeOrd} (hdist : DistinctOrds ords)
    (hnn : NonNegOrds ords) {a b : Nat} {oa ob : ScopeOrd}
    (ha : ords.get? a = some oa) (hb : ords.get? b = some ob)
    (hoa : oa ≠ -1) (hob : ob ≠ -1) (hab : a ≠ b) :
    oa.toNat ≠ ob.toNat := by
  intro heq
  have h1 : oa = ob := by
    rcases hnn a oa ha with h | h
    · exact absurd h hoa
    · rcases hnn b ob hb with h' | h'
      · exact absurd h' hob
      · have hcast : (oa.toNat : Int) = (ob.toNat : Int) := by rw [heq]
        rwa [Int.toNat_of_nonneg h, Int.toNat_of_nonneg h'] at hcast
  exact hab (hdist a b oa ob ha hb hoa h1)

/-- Pointwise behaviour of one pass of the rounding loop at a mutated
column's target scope position. -/
lemma roundDecimalLoop_target (tab : Table) (rcc : Bool) :
    ∀ (ords : List ScopeOrd) (idx : Nat) (scopeCols : List ScopeCol)
      (i : Nat) (ord : ScopeOrd) (sc : ScopeCol) (col : TabCol),
      DistinctOrds ords → NonNegOrds ords →
      ords.get? i = some ord → ord ≠ -1 →
      scopeCols[ord.toNat]? = some sc →
      tab.cols[idx + i]? = some col →
      (roundDecimalLoop tab rcc idx ords scopeCols)[ord.toNat]? =
        some (if (col.isComputed == rcc) &&
            (findRoundingFunction col.typFamily col.precision).isSome then
          ⟨sc.id, .fnCall "crdb_internal.round_decimal_values"
            [.varE sc.id, .constInt col.width]⟩
        else sc) := by
  intro ords
  induction ords with
  | nil => intro idx scopeCols i ord sc col _ _ hi; cases hi
  | cons o rest ih =>
    intro idx scopeCols i ord sc col hdist hnn hi hne hsc hcol
    cases i with
    | zero =>
      have ho : o = ord := by
        simpa using hi
      subst ho
      rw [roundDecimalLoop]
      have hrest : ∀ k o', rest.get? k = some o' → o' ≠ -1 →
          o'.toNat ≠ o.toNat := by
        intro k o' hk hne'
        exact distinctOrds_toNat_ne hdist hnn
          (a := k + 1) (b := 0) (by simpa using hk) (by simp) hne' hne
          (by omega)
      rw [roundDecimalLoop_other tab rcc rest (idx + 1) _ o.toNat hrest]
      have hcol0 : tab.cols[idx]? = some col := by simpa using hcol
      have hlt : o.toNat < scopeCols.length :=
        (List.getElem?_eq_some_iff.mp hsc).1
      unfold roundDecimalStep
      rw [if_neg hne, hcol0]
      by_cases h2 : col.isComputed = rcc
      · simp only [h2, bne_self_eq_false, Bool.false_eq_true, if_false,
          beq_self_eq_true, Bool.true_and]
        cases hfr : findRoundingFunction col.typFamily col.precision with
        | none => simpa [hfr] using hsc
        | some k =>
          simp only [hfr, hsc, Option.isSome_some, if_true]
          exact List.getElem?_set_eq_of_lt _ hlt
      · have hbne : (col.isComputed != rcc) = true := by
          simp [bne_iff_ne, h2]
        have hbeq : (col.isComputed == rcc) = false := by
          simp [h2]
        simp only [hbne, if_true, hbeq, Bool.false_and, Bool.false_eq_true,
          if_false]
        exact hsc
    | succ j =>
      have hj : rest.get? j = some ord := by simpa using hi
      have hcol' : tab.cols[(idx + 1) + j]? = some col := by
        have : (idx + 1) + j = idx + (j + 1) := by omega
        rw [this]; exact hcol
      have hstep : (roundDecimalStep tab rcc idx o scopeCols)[ord.toNat]? =
          some sc := by
        rw [roundDecimalStep_other tab rcc idx o scopeCols ord.toNat ?_]
        · exact hsc
        · by_cases ho : o = -1
          · exact Or.inl ho
          · exact Or.inr (distinctOrds_toNat_ne hdist hnn
              (a := 0) (b := j + 1) (by simp) hi ho hne (by omega))
      rw [roundDecimalLoop]
      exact ih (idx + 1) _ j ord sc col (distinctOrds_tail hdist)
        (nonNegOrds_tail hnn) hj hne hstep hcol'

/-- C9: the decimal rounding projector runs twice, first over non-computed
and then over computed mutated columns; in each pass, the scope column of a
column mutated in the role array is wrapped in
round_decimal_values(value, declared scale) exactly when the pass matches
its computed-ness and its declared type is a DECIMAL or DECIMAL array of
nonzero precision, and is left untouched otherwise; scope positions not
targeted by any mutated column are untouched. -/
theorem roundDecimalValues_spec (tab : Table) (ords : List ScopeOrd)
    (scopeCols : List ScopeCol) (hdist : DistinctOrds ords)
    (hnn : NonNegOrds ords) :
    (roundDecimalValuesTwice tab ords scopeCols =
      roundDecimalValues tab ords true
        (roundDecimalValues tab ords false scopeCols)) ∧
    (∀ (rcc : Bool) (cols0 : List ScopeCol) (i : Nat) (ord : ScopeOrd)
      (sc : ScopeCol) (col : TabCol),
      ords.get? i = some ord → ord ≠ -1 →
      cols0[ord.toNat]? = some sc → tab.cols[i]? = some col →
      (roundDecimalValues tab ords rcc cols0)[ord.toNat]? =
        some (if (col.isComputed == rcc) &&
            (findRoundingFunction col.typFamily col.precision).isSome then
          ⟨sc.id, .fnCall "crdb_internal.round_decimal_values"
            [.varE sc.id, .constInt col.width]⟩
        else sc)) ∧
    (∀ (rcc : Bool) (cols0 : List ScopeCol) (j : Nat),
      (∀ k ord, ords.get? k = some ord → ord ≠ -1 → ord.toNat ≠ j) →
      (roundDecimalValues tab ords rcc cols0)[j]? = cols0[j]?) := by
  refine ⟨rfl, ?_, ?_⟩
  · intro rcc cols0 i ord sc col hi hne hsc hcol
    exact roundDecimalLoop_target tab rcc ords 0 cols0 i ord sc col hdist hnn
      hi hne hsc (by simpa using hcol)
  · intro rcc cols0 j hk
    exact roundDecimalLoop_other tab rcc ords 0 cols0 j hk

/-- Witness for C9 on a one-column table with a DECIMAL(10,2) column: the
non-computed pass wraps the projected expression in the rounding function
with the declared scale 2. -/
theorem roundDecimalValues_spec_witness :
    (roundDecimalValues
      ⟨1, [⟨"d", false, false, false, "", "", true, .decimal, 10, 2⟩],
        1, [], []⟩ [0] false [⟨5, .varE 5⟩])[0]? =
      some ⟨5, .fnCall "crdb_internal.round_decimal_values"
        [.varE 5, .constInt 2]⟩ := by
  have h := (roundDecimalValues_spec
    ⟨1, [⟨"d", false, false, false, "", "", true, .decimal, 10, 2⟩],
      1, [], []⟩ [0] [⟨5, .varE 5⟩]
    (by intro a b oa ob ha hb hne hq
        cases a with
        | zero => cases b with
          | zero => rfl
          | succ b => simp at hb
        | succ a => simp at ha)
    (by intro k o hk
        cases k with
        | zero =>
          have h0 : (0 : Int) = o := by simpa using hk
          exact Or.inr (le_of_eq h0)
        | succ k => simp at hk)).2.1
    false [⟨5, .varE 5⟩] 0 0 ⟨5, .varE 5⟩
    ⟨"d", false, false, false, "", "", true, .decimal, 10, 2⟩
    rfl (by decide) rfl rfl
  simpa [findRoundingFunction] using h

/-! ## Foreign-key check building (C2, C3, C4, C5, C6) -/

/-- memo relational expressions, with only the constructors the FK check
builders construct: WithScan of the buffered mutation input, Select with
filters, Scan of the other table, anti-join, semi-join, and Except. -/
inductive RelExpr where
  | withScan (withID : Nat) (inCols outCols : List Nat)
  | selectExpr (input : RelExpr) (filters : List Scalar)
  | scanExpr (tabMetaID : Nat) (cols : List Nat)
  | antiJoin (left right : RelExpr) (filters : List Scalar)
  | semiJoin (left right : RelExpr) (filters : List Scalar)
  | exceptExpr (left right : RelExpr) (leftCols rightCols outCols : List Nat)

/-- memo.FKChecksItemPrivate together with its check query. -/
structure ChecksItem where
  query : RelExpr
  originTable : Nat
  referencedTable : Nat
  fkOutbound : Bool
  fkOrdinal : Nat
  keyCols : List Nat
  opName : String

/-- Result of cat.Catalog.ResolveDataSourceByID: the table, or the
"object is being created" indication (err with isAdding), or another
error. -/
inductive ResolveResult where
  | resolved (t : Table)
  | adding
  | resolveErr (msg : String)

/-- The scope the FK builders read: the working columns (with their ids) and
the not-null column ids of the input expression's relational props. -/
structure OutScope where
  cols : List ScopeCol
  notNullCols : List Nat

/-- The per-statement environment the FK builders read but never write: the
target table and its metadata id, the statement name, the role ordinal
arrays, the check constraint ordinals, the canary column, the working
scope, the catalog, the privilege checker, and the OptimizerFKs session
flag. -/
structure Env where
  tab : Table
  tabID : Nat
  opName : String
  roleOrds : RoleOrds
  checkOrds : List ScopeOrd
  canaryColID : Nat
  outScope : OutScope
  catalog : Nat → ResolveResult
  selectPriv : Nat → Bool
  optimizerFKs : Bool

/-- The builder state the FK builders mutate: the check list, the fallback
flag, the reserved buffered-input id (0 = none reserved), and the memo /
metadata counters for fresh with-ids and column ids. -/
structure FKState where
  checks : List ChecksItem
  fkFallback : Bool
  withID : Nat
  nextWithID : Nat
  nextColID : Nat

/-- fkCheckHelper: the constraint, its ordinal and direction, the resolved
other table (none while unresolved, as after an is-adding early return),
and the FK column ordinals in the mutated and in the other table. -/
structure FKHelper where
  fk : ForeignKey
  fkOrdinal : Nat
  fkOutbound : Bool
  otherTab : Option Table
  tabOrdinals : List Nat
  otherTabOrdinals : List Nat

/-- mutationBuilder.scopeOrdToColID: 0 for the unset ordinal, otherwise the
id of the scope column at that ordinal (0 for out-of-range, where the Go
slice access would panic; callers treat 0 as "no value"). -/
def scopeOrdToColID (cols : List ScopeCol) (ord : ScopeOrd) : Nat :=
  if ord = -1 then 0
  else
    match cols[ord.toNat]? with
    | some c => c.id
    | none => 0

/-- fkCheckHelper.initWithOutboundFK: resolve the referenced table by id;
an is-adding resolution returns ok=false with the helper left without an
other table; other errors propagate; on success the SELECT privilege is
checked and the origin/referenced ordinal lists are filled. -/
def initWithOutboundFK (env : Env) (fkOrdinal : Nat) :
    Except String (FKHelper × Bool) :=
  match env.tab.outboundFKs[fkOrdinal]? with
  | none => .error "foreign key ordinal out of range"
  | some fk =>
    match env.catalog fk.referencedTableID with
    | .adding => .ok (⟨fk, fkOrdinal, true, none, [], []⟩, false)
    | .resolveErr msg => .error msg
    | .resolved t =>
      if env.selectPriv fk.referencedTableID then
        .ok (⟨fk, fkOrdinal, true, some t, fk.originColOrds,
          fk.referencedColOrds⟩, true)
      else .error "user does not have SELECT privilege"

/-- fkCheckHelper.initWithInboundFK: as initWithOutboundFK, but resolving
the origin table and swapping the ordinal lists. -/
def initWithInboundFK (env : Env) (fkOrdinal : Nat) :
    Except String (FKHelper × Bool) :=
  match env.tab.inboundFKs[fkOrdinal]? with
  | none => .error "foreign key ordinal out of range"
  | some fk =>
    match env.catalog fk.originTableID with
    | .adding => .ok (⟨fk, fkOrdinal, false, none, [], []⟩, false)
    | .resolveErr msg => .error msg
    | .resolved t =>
      if env.selectPriv fk.originTableID then
        .ok (⟨fk, fkOrdinal, false, some t, fk.referencedColOrds,
          fk.originColOrds⟩, true)
      else .error "user does not have SELECT privilege"

/-- fkInputScanType: scan the new values or the fetched values. -/
inductive FKScanType where
  | newVals
  | fetchedVals
deriving DecidableEq

/-- The loop of makeFKInputScan over the helper's table ordinals: per FK
column, the mutation-input column id (the final new value via
mapToReturnScopeOrd, or the fetched value), a panic when there is no such
value, a fresh synthesized output column id, and membership in the
not-null output set when the input column is not null in the mutation
input or the table column is non-nullable. Returns (inputCols, outCols,
notNullOutCols, next fresh id). -/
def makeFKInputScanLoop (env : Env) (typ : FKScanType) :
    List Nat → Nat → Except String (List Nat × List Nat × List Nat × Nat)
  | [], nextColID => .ok ([], [], [], nextColID)
  | tabOrd :: rest, nextColID =>
    let inCol :=
      if typ = .newVals then
        scopeOrdToColID env.outScope.cols
          (mapToReturnScopeOrd env.roleOrds tabOrd)
      else
        scopeOrdToColID env.outScope.cols (ordAt env.roleOrds.fetchOrds tabOrd)
    if inCol = 0 then .error "no value available for FK column"
    else
      match env.tab.cols[tabOrd]? with
      | none => .error "column ordinal out of range"
      | some c =>
        match makeFKInputScanLoop env typ rest (nextColID + 1) with
        | .error e => .error e
        | .ok (ins, outs, nns, next') =>
          let nns' :=
            if env.outScope.notNullCols.contains inCol || !c.isNullable then
              nextColID :: nns
            else nns
          .ok (inCol :: ins, nextColID :: outs, nns', next')

/-- fkCheckHelper.makeFKInputScan: a WithScan of the buffered mutation
input over the FK columns, returning the scan, its output columns, and the
statically not-null output columns. -/
def makeFKInputScan (env : Env) (st : FKState) (h : FKHelper)
    (typ : FKScanType) :
    Except String (RelExpr × List Nat × List Nat × FKState) :=
  match makeFKInputScanLoop env typ h.tabOrdinals st.nextColID with
  | .error e => .error e
  | .ok (ins, outs, nns, next') =>
    .ok (.withScan st.withID ins outs, outs, nns,
      { st with nextColID := next' })

/-- fkCheckHelper.buildOtherTableScan: scan of the other table restricted
to the FK column ordinals, with fresh metadata column ids; dereferencing an
unresolved other table is the Go nil-pointer panic. -/
def buildOtherTableScan (env : Env) (st : FKState) (h : FKHelper) :
    Except String (RelExpr × List Nat × Nat × FKState) :=
  match h.otherTab with
  | none => .error "nil other table dereference"
  | some t =>
    let ids := (List.range h.otherTabOrdinals.length).map
      (fun j => st.nextColID + j)
    .ok (.scanExpr t.stableID ids, ids, t.stableID,
      { st with nextColID := st.nextColID + h.otherTabOrdinals.length })

/-- The join filters of the FK checks: positional equality of left and
right column ids. -/
def eqFilters (l r : List Nat) : List Scalar :=
  (l.zip r).map (fun p => .eqE (.varE p.1) (.varE p.2))

/-- The null pre-filter block of addInsertionCheck: when some origin column
is not statically non-null, MATCH SIMPLE wraps the input in a Select whose
filters are one IS NOT NULL conjunct per possibly-null column, and MATCH
FULL wraps it in a Select with a single OR of IS NOT NULL over all columns
unless some column is statically non-null (then no filter is needed); when
every column is statically non-null no filter is added. MATCH PARTIAL is
the unsupported-match-method panic. -/
def insertionCheckInput (m : MatchMethod) (fkInput : RelExpr)
    (withScanCols notNullCols : List Nat) : Except String RelExpr :=
  if notNullCols.length < withScanCols.length then
    match m with
    | .simple =>
      .ok (.selectExpr fkInput
        ((withScanCols.filter (fun c => !notNullCols.contains c)).map
          (fun c => .isNot (.varE c) .nullE)))
    | .full =>
      if notNullCols.isEmpty then
        match withScanCols with
        | [] => .error "nil filter condition"
        | c :: rest =>
          .ok (.selectExpr fkInput
            [rest.foldl (fun acc c' => .orE acc (.isNot (.varE c') .nullE))
              (.isNot (.varE c) .nullE)])
      else .ok fkInput
    | .matchPartial => .error "match method not supported"
  else .ok fkInput

/-- mutationBuilder.addInsertionCheck: initialize the outbound helper (the
source call site discards the ok flag), scan the new values of the origin
columns from the buffered input, apply the match-method null pre-filter,
scan the referenced table, and anti-join with positional equality; the
check item records direction, ordinal, key columns and statement name. -/
def addInsertionCheck (env : Env) (st : FKState) (fkOrdinal : Nat) :
    Except String FKState :=
  match initWithOutboundFK env fkOrdinal with
  | .error e => .error e
  | .ok (h, _) =>
    match makeFKInputScan env st h .newVals with
    | .error e => .error e
    | .ok (fkInput, withScanCols, notNullCols, st₁) =>
      match insertionCheckInput h.fk.matchMethod fkInput withScanCols
          notNullCols with
      | .error e => .error e
      | .ok fkInput' =>
        match buildOtherTableScan env st₁ h with
        | .error e => .error e
        | .ok (scanRel, scanCols, refTabID, st₂) =>
          if scanCols.length < withScanCols.length then
            .error "index out of range building join filters"
          else
            .ok { st₂ with checks := st₂.checks ++
              [⟨.antiJoin fkInput' scanRel (eqFilters withScanCols scanCols),
                env.tabID, refTabID, true, fkOrdinal, withScanCols,
                env.opName⟩] }

/-- mutationBuilder.addDeletionCheck: scan of the origin table semi-joined
against the deleted rows with positional equality. -/
def addDeletionCheck (env : Env) (st : FKState) (h : FKHelper)
    (deletedRows : RelExpr) (deleteCols : List Nat) : Except String FKState :=
  match buildOtherTableScan env st h with
  | .error e => .error e
  | .ok (scanRel, scanCols, origTabID, st₁) =>
    if scanCols.length < deleteCols.length then
      .error "index out of range building join filters"
    else
      .ok { st₁ with checks := st₁.checks ++
        [⟨.semiJoin deletedRows scanRel (eqFilters deleteCols scanCols),
          origTabID, env.tabID, false, h.fkOrdinal, deleteCols,
          env.opName⟩] }

/-- Outcome of one iteration of an inbound FK loop: continue with the next
foreign key, or return from the builder (the fallback bail-out). -/
inductive LoopStep where
  | cont (st : FKState)
  | stop (st : FKState)

/-- A loop over FK ordinals whose body may return early (the Go return
statement inside the range loop). -/
def fkLoop (f : FKState → Nat → Except String LoopStep) :
    FKState → List Nat → Except String FKState
  | st, [] => .ok st
  | st, i :: rest =>
    match f st i with
    | .error e => .error e
    | .ok (.cont st') => fkLoop f st' rest
    | .ok (.stop st') => .ok st'

/-- A loop over FK ordinals with no early return. -/
def exceptLoop (f : FKState → Nat → Except String FKState) :
    FKState → List Nat → Except String FKState
  | st, [] => .ok st
  | st, i :: rest =>
    match f st i with
    | .error e => .error e
    | .ok st' => exceptLoop f st' rest

/-- mutationBuilder.outboundFKColsUpdated: some origin column of the
outbound FK has an update-role value. -/
def outboundFKColsUpdated (env : Env) (fkOrdinal : Nat) : Bool :=
  match env.tab.outboundFKs[fkOrdinal]? with
  | none => false
  | some fk =>
    fk.originColOrds.any (fun o => ordAt env.roleOrds.updateOrds o != -1)

/-- mutationBuilder.inboundFKColsUpdated: some referenced column of the
inbound FK has an update-role value. -/
def inboundFKColsUpdated (env : Env) (fkOrdinal : Nat) : Bool :=
  match env.tab.inboundFKs[fkOrdinal]? with
  | none => false
  | some fk =>
    fk.referencedColOrds.any (fun o => ordAt env.roleOrds.updateOrds o != -1)

/-- memo.NextWithID: reserve a fresh (positive) buffered-input binding
id. -/
def reserveWithID (st : FKState) : FKState :=
  { st with withID := st.nextWithID + 1, nextWithID := st.nextWithID + 1 }

/-- mutationBuilder.buildFKChecksForInsert: nothing without outbound FKs;
fallback when OptimizerFKs is off; otherwise reserve the buffered input and
add one insertion check per outbound FK. -/
def buildFKChecksForInsert (env : Env) (st : FKState) :
    Except String FKState :=
  if env.tab.outboundFKs.length = 0 then .ok st
  else if !env.optimizerFKs then .ok { st with fkFallback := true }
  else
    exceptLoop (fun st' i => addInsertionCheck env st' i) (reserveWithID st)
      (List.range env.tab.outboundFKs.length)

/-- The body of the buildFKChecksForDelete loop for one inbound FK: skip
FKs whose origin table is being added; for a delete reference action other
than RESTRICT / NO ACTION, drop every check built so far, set the fallback
flag, and return; otherwise semi-join the fetched values against the origin
table. -/
def deleteInboundStep (env : Env) (st : FKState) (i : Nat) :
    Except String LoopStep :=
  match initWithInboundFK env i with
  | .error e => .error e
  | .ok (h, ok) =>
    if !ok then .ok (.cont st)
    else if h.fk.deleteAction != .restrict && h.fk.deleteAction != .noAction
    then .ok (.stop { st with checks := [], fkFallback := true })
    else
      match makeFKInputScan env st h .fetchedVals with
      | .error e => .error e
      | .ok (fkInput, withScanCols, _, st₁) =>
        match addDeletionCheck env st₁ h fkInput withScanCols with
        | .error e => .error e
        | .ok st₂ => .ok (.cont st₂)

/-- mutationBuilder.buildFKChecksForDelete. -/
def buildFKChecksForDelete (env : Env) (st : FKState) :
    Except String FKState :=
  if env.tab.inboundFKs.length = 0 then .ok st
  else if !env.optimizerFKs then .ok { st with fkFallback := true }
  else
    fkLoop (deleteInboundStep env) (reserveWithID st)
      (List.range env.tab.inboundFKs.length)

/-- The body of the buildFKChecksForUpdate inbound loop for one inbound FK:
skip FKs with no referenced column in the update role and FKs whose origin
table is being added; bail to the fallback for a non-RESTRICT/NO-ACTION
update action; otherwise the deletion check input is the Except (set
difference) of the fetched (old) values and the new values of the
referenced columns. The buildFKChecksForUpsert inbound loop has the same
body. -/
def updateInboundStep (env : Env) (st : FKState) (i : Nat) :
    Except String LoopStep :=
  if !inboundFKColsUpdated env i then .ok (.cont st)
  else
    match initWithInboundFK env i with
    | .error e => .error e
    | .ok (h, ok) =>
      if !ok then .ok (.cont st)
      else if h.fk.updateAction != .restrict && h.fk.updateAction != .noAction
      then .ok (.stop { st with checks := [], fkFallback := true })
      else
        match makeFKInputScan env st h .fetchedVals with
        | .error e => .error e
        | .ok (oldRows, colsForOldRow, _, st₁) =>
          match makeFKInputScan env st₁ h .newVals with
          | .error e => .error e
          | .ok (newRows, colsForNewRow, _, st₂) =>
            match addDeletionCheck env st₂ h
                (.exceptExpr oldRows newRows colsForOldRow colsForNewRow
                  colsForOldRow) colsForOldRow with
            | .error e => .error e
            | .ok st₃ => .ok (.cont st₃)

/-- mutationBuilder.buildFKChecksForUpdate: insertion checks for outbound
FKs with an updated origin column, then deletion checks for inbound FKs
with an updated referenced column. -/
def buildFKChecksForUpdate (env : Env) (st : FKState) :
    Except String FKState :=
  if env.tab.outboundFKs.length = 0 ∧ env.tab.inboundFKs.length = 0 then
    .ok st
  else if !env.optimizerFKs then .ok { st with fkFallback := true }
  else
    match exceptLoop (fun st' i =>
        if outboundFKColsUpdated env i then addInsertionCheck env st' i
        else .ok st') (reserveWithID st)
      (List.range env.tab.outboundFKs.length) with
    | .error e => .error e
    | .ok st₁ =>
      fkLoop (updateInboundStep env) st₁
        (List.range env.tab.inboundFKs.length)

/-- mutationBuilder.buildFKChecksForUpsert: insertion checks for every
outbound FK (any row may turn into an insert), then the same inbound loop
as for update. -/
def buildFKChecksForUpsert (env : Env) (st : FKState) :
    Except String FKState :=
  if env.tab.outboundFKs.length = 0 ∧ env.tab.inboundFKs.length = 0 then
    .ok st
  else if !env.optimizerFKs then .ok { st with fkFallback := true }
  else
    match exceptLoop (fun st' i => addInsertionCheck env st' i)
      (reserveWithID st) (List.range env.tab.outboundFKs.length) with
    | .error e => .error e
    | .ok st₁ =>
      fkLoop (updateInboundStep env) st₁
        (List.range env.tab.inboundFKs.length)

/-! ## makeMutationPrivate (C5) -/

/-- The makeColList helper of makeMutationPrivate: nil when no ordinal is
set, otherwise one column id per table column (0 for unset entries, the Go
zero value of the allocated ColList). -/
def makeColList (cols : List ScopeCol) (ords : List ScopeOrd) :
    Option (List Nat) :=
  if ords.all (fun o => o == -1) then none
  else some (ords.map (fun o => scopeOrdToColID cols o))

/-- memo.MutationPrivate, as far as makeMutationPrivate fills it. A withID
of 0 is the Go zero value: no buffered-input binding attached. -/
structure MutationPrivate where
  table : Nat
  insertCols : Option (List Nat)
  fetchCols : Option (List Nat)
  updateCols : Option (List Nat)
  canaryCol : Nat
  checkCols : Option (List Nat)
  fkFallback : Bool
  withID : Nat
  returnCols : Option (List Nat)

/-- The ReturnCols loop of makeMutationPrivate: one entry per deletable
column, defined (via the priority resolver) only for the non-mutation
columns; a non-mutation column with no resolved role is the
AssertionFailedf panic. -/
def buildReturnCols (env : Env) : Except String (List Nat) :=
  (List.range env.tab.cols.length).mapM (fun i =>
    if i < env.tab.numPublicCols then
      let o := mapToReturnScopeOrd env.roleOrds i
      if o = -1 then .error "column is not available in the mutation input"
      else .ok (scopeOrdToColID env.outScope.cols o)
    else .ok 0)

/-- mutationBuilder.makeMutationPrivate: package the role column lists, the
canary column, the fallback flag, and — only when at least one FK check was
planned — the buffered-input WithID; with needResults, also the RETURNING
columns. -/
def makeMutationPrivate (env : Env) (st : FKState) (needResults : Bool) :
    Except String MutationPrivate :=
  let base : MutationPrivate :=
    { table := env.tabID
      insertCols := makeColList env.outScope.cols env.roleOrds.insertOrds
      fetchCols := makeColList env.outScope.cols env.roleOrds.fetchOrds
      updateCols := makeColList env.outScope.cols env.roleOrds.updateOrds
      canaryCol := env.canaryColID
      checkCols := makeColList env.outScope.cols env.checkOrds
      fkFallback := st.fkFallback
      withID := if st.checks.length > 0 then st.withID else 0
      returnCols := none }
  if needResults then
    match buildReturnCols env with
    | .error e => .error e
    | .ok rc => .ok { base with returnCols := some rc }
  else .ok base

/-- C5: the produced mutation plan carries the buffered-input binding id if
and only if at least one FK check item was produced; with zero checks the
binding is not attached even though an id was reserved (withID nonzero). -/
theorem makeMutationPrivate_withID (env : Env) (st : FKState)
    (needResults : Bool) (p : MutationPrivate)
    (hres : st.withID ≠ 0)
    (h : makeMutationPrivate env st needResults = .ok p) :
    (p.withID ≠ 0 ↔ st.checks ≠ []) ∧
    (st.checks = [] → p.withID = 0) ∧
    (st.checks ≠ [] → p.withID = st.withID) := by
  have hw : p.withID = if st.checks.length > 0 then st.withID else 0 := by
    unfold makeMutationPrivate at h
    cases hn : needResults with
    | true =>
      rw [hn] at h
      simp only [if_true] at h
      cases hrc : buildReturnCols env with
      | error e => rw [hrc] at h; cases h
      | ok rc =>
        rw [hrc] at h
        cases h
        rfl
    | false =>
      rw [hn] at h
      simp only [Bool.false_eq_true, if_false] at h
      cases h
      rfl
  by_cases hc : st.checks = []
  · rw [hw, hc]
    simp
  · have hlen : st.checks.length > 0 := by
      cases hcc : st.checks with
      | nil => exact absurd hcc hc
      | cons a l => simp [hcc]
    rw [hw, if_pos hlen]
    exact ⟨by simp [hres, hc], fun hcontra => absurd hcontra hc,
      fun _ => rfl⟩

/-- Witness for C5: with one planned check the private carries the reserved
withID 7; the theorem applied at a one-check state. -/
theorem makeMutationPrivate_withID_witness :
    ∃ p, makeMutationPrivate
      ⟨⟨1, [], 0, [], []⟩, 1, "insert", ⟨[], [], [], []⟩, [], 0, ⟨[], []⟩,
        fun _ => .adding, fun _ => true, true⟩
      ⟨[⟨.scanExpr 2 [], 1, 2, true, 0, [], "insert"⟩], false, 7, 7, 10⟩
      false = .ok p ∧ p.withID ≠ 0 := by
  refine ⟨⟨1, none, none, none, 0, none, false, 7, none⟩, by rfl, ?_⟩
  have h := makeMutationPrivate_withID
    ⟨⟨1, [], 0, [], []⟩, 1, "insert", ⟨[], [], [], []⟩, [], 0, ⟨[], []⟩,
      fun _ => .adding, fun _ => true, true⟩
    ⟨[⟨.scanExpr 2 [], 1, 2, true, 0, [], "insert"⟩], false, 7, 7, 10⟩
    false ⟨1, none, none, none, 0, none, false, 7, none⟩
    (by decide) (by rfl)
  exact h.1.mpr (by simp)

/-! ## Foreign key against a table that is being created (C6) -/

/-- A one-column foreign key between table ids 1 and 2. -/
def fkAdding : ForeignKey :=
  ⟨1, 2, [0], [0], .simple, .noAction, .noAction⟩

/-- Environment of an insert into a one-column table with one outbound FK,
whose referenced table the catalog reports as being created. -/
def envAddingOutbound : Env :=
  ⟨⟨1, [⟨"c", false, false, false, "", "", true, .otherFamily, 0, 0⟩], 1,
      [fkAdding], []⟩,
    1, "insert", ⟨[0], [], [], []⟩, [], 0, ⟨[⟨3, .varE 3⟩], []⟩,
    fun _ => .adding, fun _ => true, true⟩

/-- Environment of a delete from a one-column table with one inbound FK,
whose origin table the catalog reports as being created. -/
def envAddingInbound : Env :=
  ⟨⟨2, [⟨"p", false, false, false, "", "", true, .otherFamily, 0, 0⟩], 1,
      [], [fkAdding]⟩,
    1, "delete", ⟨[], [0], [], []⟩, [], 0, ⟨[⟨3, .varE 3⟩], []⟩,
    fun _ => .adding, fun _ => true, true⟩

/-- C6 evaluation at the failing input: the inbound builders do skip a
foreign key whose other table is being created (the delete builder returns
without error and with no check item), but the outbound side does not —
addInsertionCheck discards the ok=false result of initWithOutboundFK and
goes on to dereference the unresolved (nil) other table, so an insert over
such a foreign key fails instead of ignoring the constraint. -/
theorem fkAdding_outbound_panics_inbound_skips :
    buildFKChecksForInsert envAddingOutbound ⟨[], false, 0, 0, 0⟩ =
      .error "nil other table dereference" ∧
    buildFKChecksForDelete envAddingInbound ⟨[], false, 0, 0, 0⟩ =
      .ok ⟨[], false, 1, 1, 0⟩ :=
  ⟨rfl, rfl⟩

/-! ## Fallback abandons every check (C4) -/

/-- The only early return of the delete inbound loop body is the bail-out
that empties the check list and raises the fallback flag. -/
lemma deleteInboundStep_stop_shape (env : Env) (st : FKState) (i : Nat)
    (st' : FKState) (h : deleteInboundStep env st i = .ok (.stop st')) :
    st'.checks = [] ∧ st'.fkFallback = true := by
  unfold deleteInboundStep at h
  repeat' split at h
  all_goals cases h
  all_goals exact ⟨rfl, rfl⟩

/-- A delete inbound loop body at a resolvable inbound FK with a
non-RESTRICT / non-NO-ACTION delete action can never continue the loop. -/
lemma deleteInboundStep_bad_no_cont (env : Env) (st : FKState) (i : Nat)
    (fk : ForeignKey) (t : Table)
    (hfk : env.tab.inboundFKs[i]? = some fk)
    (hres : env.catalog fk.originTableID = .resolved t)
    (hpriv : env.selectPriv fk.originTableID = true)
    (hr : fk.deleteAction ≠ .restrict) (hn : fk.deleteAction ≠ .noAction) :
    ∀ st', deleteInboundStep env st i ≠ .ok (.cont st') := by
  intro st' hcontra
  have hact : ((fk.deleteAction != .restrict) &&
      (fk.deleteAction != .noAction)) = true := by
    simp [bne_iff_ne, hr, hn]
  unfold deleteInboundStep initWithInboundFK at hcontra
  simp only [hfk, hres, hpriv, if_true, Bool.not_true, Bool.false_eq_true,
    if_false, hact] at hcontra
  cases hcontra

/-- The only early return of the update/upsert inbound loop body is the
bail-out that empties the check list and raises the fallback flag. -/
lemma updateInboundStep_stop_shape (env : Env) (st : FKState) (i : Nat)
    (st' : FKState) (h : updateInboundStep env st i = .ok (.stop st')) :
    st'.checks = [] ∧ st'.fkFallback = true := by
  unfold updateInboundStep at h
  repeat' split at h
  all_goals cases h
  all_goals exact ⟨rfl, rfl⟩

/-- An update/upsert inbound loop body at a relevant (updated, resolvable)
inbound FK with a non-RESTRICT / non-NO-ACTION update action can never
continue the loop. -/
lemma updateInboundStep_bad_no_cont (env : Env) (st : FKState) (i : Nat)
    (fk : ForeignKey) (t : Table)
    (hfk : env.tab.inboundFKs[i]? = some fk)
    (hupd : inboundFKColsUpdated env i = true)
    (hres : env.catalog fk.originTableID = .resolved t)
    (hpriv : env.selectPriv fk.originTableID = true)
    (hr : fk.updateAction ≠ .restrict) (hn : fk.updateAction ≠ .noAction) :
    ∀ st', updateInboundStep env st i ≠ .ok (.cont st') := by
  intro st' hcontra
  have hact : ((fk.updateAction != .restrict) &&
      (fk.updateAction != .noAction)) = true := by
    simp [bne_iff_ne, hr, hn]
  unfold updateInboundStep initWithInboundFK at hcontra
  simp only [hupd, hfk, hres, hpriv, if_true, Bool.not_true,
    Bool.false_eq_true, if_false, hact] at hcontra
  cases hcontra

/-- If some index of the loop list can never continue, and every early
return empties the checks and raises the fallback flag, then a loop that
returns without error returns with empty checks and the fallback flag. -/
lemma fkLoop_stops (f : FKState → Nat → Except String LoopStep)
    (hstop : ∀ st i st', f st i = .ok (.stop st') →
      st'.checks = [] ∧ st'.fkFallback = true) :
    ∀ (idxs : List Nat) (st st' : FKState) (i : Nat), i ∈ idxs →
      (∀ s s', f s i ≠ .ok (.cont s')) →
      fkLoop f st idxs = .ok st' →
      st'.checks = [] ∧ st'.fkFallback = true := by
  intro idxs
  induction idxs with
  | nil => intro st st' i hi; cases hi
  | cons j rest ih =>
    intro st st' i hi hbad hloop
    unfold fkLoop at hloop
    cases hstep : f st j with
    | error e => rw [hstep] at hloop; cases hloop
    | ok step =>
      rw [hstep] at hloop
      cases step with
      | stop s1 =>
        cases hloop
        exact hstop st j _ hstep
      | cont s1 =>
        rcases List.mem_cons.mp hi with hj | hi'
        · subst hj
          exact absurd hstep (hbad st s1)
        · exact ih s1 st' i hi' hbad hloop

/-- C4: for delete, update and upsert alike, if the statement has a
relevant inbound foreign key (resolvable; for update/upsert also with a
referenced column in the update role) whose delete (resp. update)
reference action is neither RESTRICT nor NO-ACTION, then a build that
returns without error returns with an empty check list — checks built for
earlier foreign keys included — and the fallback flag set. -/
theorem fkFallback_discards_checks (env : Env) (st : FKState)
    (hstart : st.checks = []) :
    (∀ st', buildFKChecksForDelete env st = .ok st' →
      (∃ (i : Nat) (fk : ForeignKey) (t : Table),
        env.tab.inboundFKs[i]? = some fk ∧
        env.catalog fk.originTableID = .resolved t ∧
        env.selectPriv fk.originTableID = true ∧
        fk.deleteAction ≠ .restrict ∧ fk.deleteAction ≠ .noAction) →
      st'.checks = [] ∧ st'.fkFallback = true) ∧
    (∀ st', buildFKChecksForUpdate env st = .ok st' →
      (∃ (i : Nat) (fk : ForeignKey) (t : Table),
        env.tab.inboundFKs[i]? = some fk ∧
        inboundFKColsUpdated env i = true ∧
        env.catalog fk.originTableID = .resolved t ∧
        env.selectPriv fk.originTableID = true ∧
        fk.updateAction ≠ .restrict ∧ fk.updateAction ≠ .noAction) →
      st'.checks = [] ∧ st'.fkFallback = true) ∧
    (∀ st', buildFKChecksForUpsert env st = .ok st' →
      (∃ (i : Nat) (fk : ForeignKey) (t : Table),
        env.tab.inboundFKs[i]? = some fk ∧
        inboundFKColsUpdated env i = true ∧
        env.catalog fk.originTableID = .resolved t ∧
        env.selectPriv fk.originTableID = true ∧
        fk.updateAction ≠ .restrict ∧ fk.updateAction ≠ .noAction) →
      st'.checks = [] ∧ st'.fkFallback = true) := by
  have hmemrange : ∀ (i : Nat) (fk : ForeignKey),
      env.tab.inboundFKs[i]? = some fk →
      i ∈ List.range env.tab.inboundFKs.length := by
    intro i fk hfk
    exact List.mem_range.mpr (List.getElem?_eq_some_iff.mp hfk).1
  refine ⟨?_, ?_, ?_⟩
  · intro st' hbuild hex
    obtain ⟨i, fk, t, hfk, hres, hpriv, hr, hn⟩ := hex
    unfold buildFKChecksForDelete at hbuild
    by_cases h0 : env.tab.inboundFKs.length = 0
    · exact absurd (hmemrange i fk hfk) (by simp [h0])
    · rw [if_neg h0] at hbuild
      by_cases hopt : env.optimizerFKs = true
      · simp only [hopt, Bool.not_true, Bool.false_eq_true, if_false]
          at hbuild
        exact fkLoop_stops (deleteInboundStep env)
          (deleteInboundStep_stop_shape env) _ _ st' i
          (hmemrange i fk hfk)
          (fun s s' => deleteInboundStep_bad_no_cont env s i fk t hfk hres
            hpriv hr hn s') hbuild
      · have hopt' : env.optimizerFKs = false := by
          cases ho : env.optimizerFKs
          · rfl
          · exact absurd ho hopt
        rw [hopt'] at hbuild
        simp only [Bool.not_false, if_true] at hbuild
        cases hbuild
        exact ⟨hstart, rfl⟩
  · intro st' hbuild hex
    obtain ⟨i, fk, t, hfk, hupd, hres, hpriv, hr, hn⟩ := hex
    unfold buildFKChecksForUpdate at hbuild
    by_cases h0 : env.tab.outboundFKs.length = 0 ∧
        env.tab.inboundFKs.length = 0
    · exact absurd (hmemrange i fk hfk) (by simp [h0.2])
    · rw [if_neg h0] at hbuild
      by_cases hopt : env.optimizerFKs = true
      · simp only [hopt, Bool.not_true, Bool.false_eq_true, if_false]
          at hbuild
        cases hout : exceptLoop (fun st' i =>
            if outboundFKColsUpdated env i then addInsertionCheck env st' i
            else .ok st') (reserveWithID st)
            (List.range env.tab.outboundFKs.length) with
        | error e => rw [hout] at hbuild; cases hbuild
        | ok st₁ =>
          rw [hout] at hbuild
          exact fkLoop_stops (updateInboundStep env)
            (updateInboundStep_stop_shape env) _ _ st' i
            (hmemrange i fk hfk)
            (fun s s' => updateInboundStep_bad_no_cont env s i fk t hfk hupd
              hres hpriv hr hn s') hbuild
      · have hopt' : env.optimizerFKs = false := by
          cases ho : env.optimizerFKs
          · rfl
          · exact absurd ho hopt
        rw [hopt'] at hbuild
        simp only [Bool.not_false, if_true] at hbuild
        cases hbuild
        exact ⟨hstart, rfl⟩
  · intro st' hbuild hex
    obtain ⟨i, fk, t, hfk, hupd, hres, hpriv, hr, hn⟩ := hex
    unfold buildFKChecksForUpsert at hbuild
    by_cases h0 : env.tab.outboundFKs.length = 0 ∧
        env.tab.inboundFKs.length = 0
    · exact absurd (hmemrange i fk hfk) (by simp [h0.2])
    · rw [if_neg h0] at hbuild
      by_cases hopt : env.optimizerFKs = true
      · simp only [hopt, Bool.not_true, Bool.false_eq_true, if_false]
          at hbuild
        cases hout : exceptLoop (fun st' i => addInsertionCheck env st' i)
            (reserveWithID st)
            (List.range env.tab.outboundFKs.length) with
        | error e => rw [hout] at hbuild; cases hbuild
        | ok st₁ =>
          rw [hout] at hbuild
          exact fkLoop_stops (updateInboundStep env)
            (updateInboundStep_stop_shape env) _ _ st' i
            (hmemrange i fk hfk)
            (fun s s' => updateInboundStep_bad_no_cont env s i fk t hfk hupd
              hres hpriv hr hn s') hbuild
      · have hopt' : env.optimizerFKs = false := by
          cases ho : env.optimizerFKs
          · rfl
          · exact absurd ho hopt
        rw [hopt'] at hbuild
        simp only [Bool.not_false, if_true] at hbuild
        cases hbuild
        exact ⟨hstart, rfl⟩

/-- A one-column inbound FK (child table id 1 references parent id 2) with
ON DELETE / ON UPDATE CASCADE. -/
def fkCascadeC4 : ForeignKey :=
  ⟨1, 2, [0], [0], .simple, .cascade, .cascade⟩

/-- The resolved child (origin) table of fkCascadeC4. -/
def childTabC4 : Table :=
  ⟨1, [⟨"c", false, false, false, "", "", true, .otherFamily, 0, 0⟩], 1,
    [fkCascadeC4], []⟩

/-- Mutating the parent table over the cascading inbound FK: the
environment of the C4 witness. -/
def envCascadeC4 : Env :=
  ⟨⟨2, [⟨"p", false, false, false, "", "", true, .otherFamily, 0, 0⟩], 1,
      [], [fkCascadeC4]⟩,
    2, "delete", ⟨[], [0], [0], []⟩, [], 0, ⟨[⟨3, .varE 3⟩], []⟩,
    fun id => if id = 1 then .resolved childTabC4 else .adding,
    fun _ => true, true⟩

/-- Witness for C4: deleting from (and updating / upserting into) a parent
with one cascading inbound FK ends with an empty check list and the
fallback flag, by the theorem applied at the concrete builds. -/
theorem fkFallback_discards_checks_witness :
    ((⟨[], true, 1, 1, 0⟩ : FKState).checks = [] ∧
      (⟨[], true, 1, 1, 0⟩ : FKState).fkFallback = true) ∧
    ((⟨[], true, 1, 1, 0⟩ : FKState).checks = [] ∧
      (⟨[], true, 1, 1, 0⟩ : FKState).fkFallback = true) :=
  ⟨(fkFallback_discards_checks envCascadeC4 ⟨[], false, 0, 0, 0⟩ rfl).1
      ⟨[], true, 1, 1, 0⟩ (by rfl)
      ⟨0, fkCascadeC4, childTabC4, rfl, rfl, rfl, by decide, by decide⟩,
   (fkFallback_discards_checks envCascadeC4 ⟨[], false, 0, 0, 0⟩ rfl).2.1
      ⟨[], true, 1, 1, 0⟩ (by rfl)
      ⟨0, fkCascadeC4, childTabC4, rfl, rfl, rfl, rfl, by decide,
        by decide⟩⟩

/-! ## Null pre-filter semantics of the insertion check (C2) -/

/-- Evaluation of the null pre-filter scalars over a buffered-input row
(column id to value; none is SQL NULL): IS NOT NULL tests and their
disjunctions, the only scalar shapes the pre-filters build. -/
def evalNullBool (row : Nat → Option Int) : Scalar → Bool
  | .isNot (.varE c) .nullE => (row c).isSome
  | .orE a b => evalNullBool row a || evalNullBool row b
  | _ => false

/-- Whether the (possibly filtered) insertion-check input keeps a row: a
Select keeps the rows on which all its filters evaluate to true; the bare
buffered-input scan keeps every row. -/
def keepsInput (row : Nat → Option Int) : RelExpr → Bool
  | .selectExpr _ filters => filters.all (fun f => evalNullBool row f)
  | _ => true

@[simp] lemma evalNullBool_isNotNull (row : Nat → Option Int) (c : Nat) :
    evalNullBool row (.isNot (.varE c) .nullE) = (row c).isSome := rfl

/-- The statically-non-null output columns of the FK input scan are among
its output columns. -/
lemma makeFKInputScanLoop_sub (env : Env) (typ : FKScanType) :
    ∀ (ords : List Nat) (next : Nat) (ins outs nns : List Nat) (n' : Nat),
      makeFKInputScanLoop env typ ords next = .ok (ins, outs, nns, n') →
      ∀ c ∈ nns, c ∈ outs := by
  intro ords
  induction ords with
  | nil =>
    intro next ins outs nns n' h c hc
    cases h
    cases hc
  | cons tabOrd rest ih =>
    intro next ins outs nns n' h c hc
    unfold makeFKInputScanLoop at h
    by_cases h0 : (if typ = .newVals then
        scopeOrdToColID env.outScope.cols
          (mapToReturnScopeOrd env.roleOrds tabOrd)
      else
        scopeOrdToColID env.outScope.cols
          (ordAt env.roleOrds.fetchOrds tabOrd)) = 0
    · rw [if_pos h0] at h
      cases h
    · rw [if_neg h0] at h
      cases hcol : env.tab.cols[tabOrd]? with
      | none =>
        simp only [hcol] at h
        cases h
      | some tc =>
        simp only [hcol] at h
        cases hrec : makeFKInputScanLoop env typ rest (next + 1) with
        | error e =>
          simp only [hrec] at h
          cases h
        | ok q =>
          obtain ⟨ins0, outs0, nns0, n0⟩ := q
          simp only [hrec] at h
          by_cases hnn : (env.outScope.notNullCols.contains
              (if typ = .newVals then
                scopeOrdToColID env.outScope.cols
                  (mapToReturnScopeOrd env.roleOrds tabOrd)
              else
                scopeOrdToColID env.outScope.cols
                  (ordAt env.roleOrds.fetchOrds tabOrd)) ||
              !tc.isNullable) = true
          · rw [if_pos hnn] at h
            cases h
            rcases List.mem_cons.mp hc with h1 | h1
            · exact h1 ▸ List.mem_cons_self _ _
            · exact List.mem_cons_of_mem _ (ih _ _ _ _ _ hrec c h1)
          · rw [if_neg hnn] at h
            cases h
            exact List.mem_cons_of_mem _ (ih _ _ _ _ _ hrec c hc)

/-- The FK input scan returns a WithScan of the buffered input over its
output columns, with the statically-non-null columns a subset of them. -/
lemma makeFKInputScan_shape (env : Env) (st : FKState) (h : FKHelper)
    (typ : FKScanType) (fkInput : RelExpr) (outs nns : List Nat)
    (st' : FKState)
    (hscan : makeFKInputScan env st h typ = .ok (fkInput, outs, nns, st')) :
    (∃ ins, fkInput = .withScan st.withID ins outs) ∧
      ∀ c ∈ nns, c ∈ outs := by
  unfold makeFKInputScan at hscan
  cases hloop : makeFKInputScanLoop env typ h.tabOrdinals st.nextColID with
  | error e => rw [hloop] at hscan; cases hscan
  | ok q =>
    obtain ⟨ins0, outs0, nns0, n0⟩ := q
    rw [hloop] at hscan
    cases hscan
    exact ⟨⟨_, rfl⟩,
      makeFKInputScanLoop_sub env typ h.tabOrdinals st.nextColID _ _ _ _
        hloop⟩

/-- The MATCH SIMPLE pre-filter holds on a row respecting the static
non-null facts exactly when every origin column of the row is non-null. -/
lemma simpleFilters_all (row : Nat → Option Int) (cols nn : List Nat)
    (hval : ∀ c ∈ nn, (row c).isSome = true) :
    (((cols.filter (fun c => !nn.contains c)).map
        (fun c => Scalar.isNot (.varE c) .nullE)).all
      (fun f => evalNullBool row f) = true ↔
      ∀ c ∈ cols, (row c).isSome = true) := by
  constructor
  · intro h c hc
    by_cases hn : c ∈ nn
    · exact hval c hn
    · have hmem : Scalar.isNot (.varE c) .nullE ∈
          (cols.filter (fun c => !nn.contains c)).map
            (fun c => Scalar.isNot (.varE c) .nullE) :=
        List.mem_map_of_mem _ (List.mem_filter.mpr ⟨hc, by simpa using hn⟩)
      simpa using List.all_eq_true.mp h _ hmem
  · intro h
    rw [List.all_eq_true]
    intro f hf
    obtain ⟨c, hc, rfl⟩ := List.mem_map.mp hf
    simpa using h c (List.mem_filter.mp hc).1

/-- The MATCH FULL pre-filter (an OR chain of IS NOT NULL over the origin
columns) holds on a row exactly when some origin column is non-null. -/
lemma orChain_eval (row : Nat → Option Int) :
    ∀ (rest : List Nat) (acc : Scalar),
      evalNullBool row
        (rest.foldl (fun a c' => .orE a (.isNot (.varE c') .nullE)) acc) =
        (evalNullBool row acc || rest.any (fun c' => (row c').isSome)) := by
  intro rest
  induction rest with
  | nil => intro acc; simp
  | cons c' rest' ih =>
    intro acc
    rw [List.foldl_cons, ih]
    simp [evalNullBool, Bool.or_assoc]

/-- C2: an insertion check anti-joins the (possibly pre-filtered) buffered
input against a scan of the referenced table's key columns with positional
equality; when every origin column is statically non-null no pre-filter is
added; otherwise, on rows respecting the static non-null facts, the MATCH
SIMPLE pre-filter keeps exactly the rows with no NULL origin column, and
the MATCH FULL input keeps exactly the rows with at least one non-NULL
origin column (i.e. drops exactly the all-NULL rows). -/
theorem addInsertionCheck_spec (env : Env) (st : FKState) (i : Nat)
    (fk : ForeignKey) (t : Table) (fkInput : RelExpr)
    (withScanCols notNullCols : List Nat) (st₁ : FKState) (scanRel : RelExpr)
    (scanCols : List Nat) (refTabID : Nat) (st₂ : FKState)
    (fkInput' : RelExpr)
    (hfk : env.tab.outboundFKs[i]? = some fk)
    (hres : env.catalog fk.referencedTableID = .resolved t)
    (hpriv : env.selectPriv fk.referencedTableID = true)
    (hscan : makeFKInputScan env st
      ⟨fk, i, true, some t, fk.originColOrds, fk.referencedColOrds⟩ .newVals =
      .ok (fkInput, withScanCols, notNullCols, st₁))
    (hinp : insertionCheckInput fk.matchMethod fkInput withScanCols
      notNullCols = .ok fkInput')
    (hother : buildOtherTableScan env st₁
      ⟨fk, i, true, some t, fk.originColOrds, fk.referencedColOrds⟩ =
      .ok (scanRel, scanCols, refTabID, st₂))
    (hlen : ¬ scanCols.length < withScanCols.length) :
    addInsertionCheck env st i = .ok { st₂ with checks := st₂.checks ++
      [⟨.antiJoin fkInput' scanRel (eqFilters withScanCols scanCols),
        env.tabID, refTabID, true, i, withScanCols, env.opName⟩] } ∧
    (¬ notNullCols.length < withScanCols.length → fkInput' = fkInput) ∧
    (fk.matchMethod = .simple → notNullCols.length < withScanCols.length →
      fkInput' = .selectExpr fkInput
        ((withScanCols.filter (fun c => !notNullCols.contains c)).map
          (fun c => .isNot (.varE c) .nullE)) ∧
      ∀ row : Nat → Option Int, (∀ c ∈ notNullCols, (row c).isSome = true) →
        (keepsInput row fkInput' = true ↔
          ∀ c ∈ withScanCols, (row c).isSome = true)) ∧
    (fk.matchMethod = .full → notNullCols.length < withScanCols.length →
      ∀ row : Nat → Option Int, (∀ c ∈ notNullCols, (row c).isSome = true) →
        (keepsInput row fkInput' = true ↔
          ∃ c ∈ withScanCols, (row c).isSome = true)) := by
  have hinit : initWithOutboundFK env i =
      .ok (⟨fk, i, true, some t, fk.originColOrds, fk.referencedColOrds⟩,
        true) := by
    unfold initWithOutboundFK
    simp only [hfk, hres, hpriv, if_true]
  refine ⟨?_, ?_, ?_, ?_⟩
  · unfold addInsertionCheck
    simp only [hinit, hscan, hinp, hother]
    rw [if_neg hlen]
  · intro hge
    unfold insertionCheckInput at hinp
    rw [if_neg hge] at hinp
    exact (Except.ok.inj hinp).symm
  · intro hm hlt
    have hsel : fkInput' = .selectExpr fkInput
        ((withScanCols.filter (fun c => !notNullCols.contains c)).map
          (fun c => .isNot (.varE c) .nullE)) := by
      unfold insertionCheckInput at hinp
      rw [if_pos hlt] at hinp
      simp only [hm] at hinp
      exact (Except.ok.inj hinp).symm
    refine ⟨hsel, ?_⟩
    intro row hval
    rw [hsel]
    exact simpleFilters_all row withScanCols notNullCols hval
  · intro hm hlt row hval
    have hsub := (makeFKInputScan_shape env st
      ⟨fk, i, true, some t, fk.originColOrds, fk.referencedColOrds⟩ .newVals
      fkInput withScanCols notNullCols st₁ hscan).2
    have hshape := (makeFKInputScan_shape env st
      ⟨fk, i, true, some t, fk.originColOrds, fk.referencedColOrds⟩ .newVals
      fkInput withScanCols notNullCols st₁ hscan).1
    unfold insertionCheckInput at hinp
    rw [if_pos hlt] at hinp
    simp only [hm] at hinp
    by_cases hemp : notNullCols.isEmpty = true
    · rw [if_pos hemp] at hinp
      cases hcols : withScanCols with
      | nil =>
        rw [hcols] at hlt
        simp at hlt
      | cons c rest =>
        rw [hcols] at hinp
        have hsel : fkInput' = .selectExpr fkInput
            [rest.foldl (fun acc c' => .orE acc (.isNot (.varE c') .nullE))
              (.isNot (.varE c) .nullE)] := (Except.ok.inj hinp).symm
        rw [hsel]
        show ([rest.foldl (fun acc c' => .orE acc (.isNot (.varE c') .nullE))
            (.isNot (.varE c) .nullE)].all (fun f => evalNullBool row f)) =
            true ↔ _
        rw [List.all_cons, List.all_nil, Bool.and_true, orChain_eval]
        simp only [evalNullBool_isNotNull, Bool.or_eq_true, List.any_eq_true]
        constructor
        · rintro (h1 | ⟨c', hc', h2⟩)
          · exact ⟨c, List.mem_cons_self _ _, h1⟩
          · exact ⟨c', List.mem_cons_of_mem _ hc', h2⟩
        · rintro ⟨c', hc', h2⟩
          rcases List.mem_cons.mp hc' with h3 | h3
          · exact Or.inl (h3 ▸ h2)
          · exact Or.inr ⟨c', h3, h2⟩
    · rw [if_neg hemp] at hinp
      have hid : fkInput' = fkInput := (Except.ok.inj hinp).symm
      obtain ⟨ins, hws⟩ := hshape
      have hkeeps : keepsInput row fkInput' = true := by
        rw [hid, hws]
        rfl
      rw [hkeeps]
      simp only [true_iff]
      obtain ⟨c0, hc0⟩ : ∃ c0, c0 ∈ notNullCols := by
        cases hnc : notNullCols with
        | nil => rw [hnc] at hemp; exact absurd rfl hemp
        | cons a l => exact ⟨a, List.mem_cons_self _ _⟩
      exact ⟨c0, hsub c0 hc0, hval c0 hc0⟩

/-- A two-column MATCH SIMPLE FK from child (id 1) to parent (id 2). -/
def fkC2 : ForeignKey :=
  ⟨1, 2, [0, 1], [0, 1], .simple, .noAction, .noAction⟩

/-- The referenced parent table of fkC2. -/
def parentC2 : Table :=
  ⟨2, [⟨"p0", false, false, false, "", "", false, .otherFamily, 0, 0⟩,
       ⟨"p1", false, false, false, "", "", false, .otherFamily, 0, 0⟩], 2,
    [], []⟩

/-- Insert into the two-nullable-column child table over fkC2. -/
def envC2 : Env :=
  ⟨⟨1, [⟨"a", false, false, false, "", "", true, .otherFamily, 0, 0⟩,
        ⟨"b", false, false, false, "", "", true, .otherFamily, 0, 0⟩], 2,
      [fkC2], []⟩,
    1, "insert", ⟨[0, 1], [], [], []⟩, [], 0,
    ⟨[⟨10, .varE 10⟩, ⟨11, .varE 11⟩], []⟩,
    fun id => if id = 2 then .resolved parentC2 else .adding,
    fun _ => true, true⟩

/-- Builder state of the C2 witness, after the buffered input id 5 was
reserved. -/
def stC2 : FKState := ⟨[], false, 5, 5, 20⟩

/-- Witness for C2: the insertion check for fkC2 is the anti-join of the
MATCH SIMPLE pre-filtered buffered-input scan (both origin columns are
nullable, so both get an IS NOT NULL conjunct) against the parent scan
with positional equality. -/
theorem addInsertionCheck_spec_witness :
    addInsertionCheck envC2 stC2 0 = .ok ⟨[⟨.antiJoin
      (.selectExpr (.withScan 5 [10, 11] [20, 21])
        [.isNot (.varE 20) .nullE, .isNot (.varE 21) .nullE])
      (.scanExpr 2 [22, 23])
      (eqFilters [20, 21] [22, 23]), 1, 2, true, 0, [20, 21], "insert"⟩],
      false, 5, 5, 24⟩ :=
  (addInsertionCheck_spec envC2 stC2 0 fkC2 parentC2
    (.withScan 5 [10, 11] [20, 21]) [20, 21] [] ⟨[], false, 5, 5, 22⟩
    (.scanExpr 2 [22, 23]) [22, 23] 2 ⟨[], false, 5, 5, 24⟩
    (.selectExpr (.withScan 5 [10, 11] [20, 21])
      [.isNot (.varE 20) .nullE, .isNot (.varE 21) .nullE])
    rfl rfl rfl (by rfl) (by rfl) (by rfl) (by decide)).1

/-! ## Set-difference deletion checks for update (C3) -/

/-- The tuple a WithScan of the buffered input produces for one input row:
the values of its input columns, positionally. -/
def scanRowOf (row : Nat → Option Int) : RelExpr → List (Option Int)
  | .withScan _ inCols _ => inCols.map row
  | _ => []

/-- The tuples a WithScan produces over the whole buffered input. -/
def scanRows (binding : List (Nat → Option Int)) (e : RelExpr) :
    List (List (Option Int)) :=
  binding.map (fun row => scanRowOf row e)

/-- Value-wise set difference: the left tuples that do not occur among the
right tuples (the semantics of the Except operator). -/
def exceptRows (l r : List (List (Option Int))) : List (List (Option Int)) :=
  l.filter (fun tup => !r.contains tup)

/-- The rows the deletion-check input produces over the buffered input: for
the update/upsert Except shape, the old tuples minus the new tuples; for a
bare WithScan (the delete case), all its tuples. -/
def deletionInputRows (binding : List (Nat → Option Int)) :
    RelExpr → List (List (Option Int))
  | .exceptExpr l r _ _ _ =>
    exceptRows (scanRows binding l) (scanRows binding r)
  | e => scanRows binding e

/-- A tuple present on the right side never survives the set difference. -/
lemma exceptRows_not_mem (l r : List (List (Option Int)))
    (tup : List (Option Int)) (h : tup ∈ r) : tup ∉ exceptRows l r := by
  intro hmem
  have := (List.mem_filter.mp hmem).2
  simp only [Bool.not_eq_true', List.contains_eq_any_beq] at this
  have h2 : r.any (tup == ·) = true :=
    List.any_eq_true.mpr ⟨tup, h, by simp⟩
  rw [h2] at this
  cases this

/-- C3: for an update, an inbound FK with no referenced column in the
update role gets no deletion check (the loop body leaves the state
untouched); an inbound FK with an updated referenced column and a
RESTRICT / NO-ACTION update action gets a deletion check whose input is
the Except (set difference) of the fetched (old) values minus the new
values, semi-joined against the origin table scan with positional
equality; and a row whose old and new key tuples coincide (a no-op update
such as SET c = c) contributes no tuple to the deletion-check input. -/
theorem updateDeletionCheck_except (env : Env) (st : FKState) (i : Nat)
    (fk : ForeignKey) (t : Table) (oldScan : RelExpr)
    (oldCols oldNN : List Nat) (st₁ : FKState) (newScan : RelExpr)
    (newCols newNN : List Nat) (st₂ : FKState) (scanRel : RelExpr)
    (scanCols : List Nat) (origTabID : Nat) (st₃ : FKState)
    (hfk : env.tab.inboundFKs[i]? = some fk)
    (hres : env.catalog fk.originTableID = .resolved t)
    (hpriv : env.selectPriv fk.originTableID = true)
    (hact : fk.updateAction = .restrict ∨ fk.updateAction = .noAction)
    (hold : makeFKInputScan env st
      ⟨fk, i, false, some t, fk.referencedColOrds, fk.originColOrds⟩
      .fetchedVals = .ok (oldScan, oldCols, oldNN, st₁))
    (hnew : makeFKInputScan env st₁
      ⟨fk, i, false, some t, fk.referencedColOrds, fk.originColOrds⟩
      .newVals = .ok (newScan, newCols, newNN, st₂))
    (hother : buildOtherTableScan env st₂
      ⟨fk, i, false, some t, fk.referencedColOrds, fk.originColOrds⟩ =
      .ok (scanRel, scanCols, origTabID, st₃))
    (hlen : ¬ scanCols.length < oldCols.length) :
    (inboundFKColsUpdated env i = false →
      updateInboundStep env st i = .ok (.cont st)) ∧
    (inboundFKColsUpdated env i = true →
      updateInboundStep env st i = .ok (.cont { st₃ with
        checks := st₃.checks ++
          [⟨.semiJoin
              (.exceptExpr oldScan newScan oldCols newCols oldCols)
              scanRel (eqFilters oldCols scanCols),
            origTabID, env.tabID, false, i, oldCols, env.opName⟩] })) ∧
    (∀ (binding : List (Nat → Option Int)) (row : Nat → Option Int),
      row ∈ binding → scanRowOf row oldScan = scanRowOf row newScan →
      scanRowOf row oldScan ∉ deletionInputRows binding
        (.exceptExpr oldScan newScan oldCols newCols oldCols)) := by
  have hinit : initWithInboundFK env i =
      .ok (⟨fk, i, false, some t, fk.referencedColOrds, fk.originColOrds⟩,
        true) := by
    unfold initWithInboundFK
    simp only [hfk, hres, hpriv, if_true]
  refine ⟨?_, ?_, ?_⟩
  · intro hupd
    unfold updateInboundStep
    rw [hupd]
    rfl
  · intro hupd
    have hgate : ((fk.updateAction != RefAction.restrict) &&
        (fk.updateAction != RefAction.noAction)) = false := by
      rcases hact with h | h <;> simp [h]
    unfold updateInboundStep
    simp only [hupd, Bool.not_true, Bool.false_eq_true, if_false, hinit,
      hgate, hold, hnew]
    unfold addDeletionCheck
    simp only [hother]
    rw [if_neg hlen]
  · intro binding row hrow heq hmem
    have hnewmem : scanRowOf row oldScan ∈ scanRows binding newScan := by
      rw [heq]
      exact List.mem_map_of_mem _ hrow
    exact exceptRows_not_mem (scanRows binding oldScan)
      (scanRows binding newScan) (scanRowOf row oldScan) hnewmem
      (by simpa [deletionInputRows] using hmem)

/-- A one-column inbound FK with ON UPDATE RESTRICT (child id 1 references
parent id 2). -/
def fkC3 : ForeignKey :=
  ⟨1, 2, [0], [0], .simple, .restrict, .restrict⟩

/-- The resolved child (origin) table of fkC3. -/
def childC3 : Table :=
  ⟨1, [⟨"c", false, false, false, "", "", true, .otherFamily, 0, 0⟩], 1,
    [fkC3], []⟩

/-- Updating the referenced column of the parent table over fkC3: the
fetched value sits at scope ordinal 0 (column id 10), the new value at
scope ordinal 1 (column id 11). -/
def envC3 : Env :=
  ⟨⟨2, [⟨"p", false, false, false, "", "", true, .otherFamily, 0, 0⟩], 1,
      [], [fkC3]⟩,
    2, "update", ⟨[], [0], [1], []⟩, [], 0,
    ⟨[⟨10, .varE 10⟩, ⟨11, .varE 11⟩], []⟩,
    fun id => if id = 1 then .resolved childC3 else .adding,
    fun _ => true, true⟩

/-- Builder state of the C3 witness, after the buffered input id 5 was
reserved. -/
def stC3 : FKState := ⟨[], false, 5, 5, 20⟩

/-- Witness for C3: the deletion check of the update semi-joins the Except
of old (fetched) and new values against the child scan; and a buffered row
whose old and new values are both 5 (a no-op update) contributes no tuple
to the deletion-check input. -/
theorem updateDeletionCheck_except_witness :
    updateInboundStep envC3 stC3 0 = .ok (.cont ⟨[⟨.semiJoin
      (.exceptExpr (.withScan 5 [10] [20]) (.withScan 5 [11] [21])
        [20] [21] [20])
      (.scanExpr 1 [22]) (eqFilters [20] [22]),
      1, 2, false, 0, [20], "update"⟩], false, 5, 5, 23⟩) ∧
    scanRowOf (fun c => if c = 10 then some 5 else
        if c = 11 then some 5 else none) (.withScan 5 [10] [20]) ∉
      deletionInputRows [fun c => if c = 10 then some 5 else
        if c = 11 then some 5 else none]
        (.exceptExpr (.withScan 5 [10] [20]) (.withScan 5 [11] [21])
          [20] [21] [20]) :=
  ⟨(updateDeletionCheck_except envC3 stC3 0 fkC3 childC3
      (.withScan 5 [10] [20]) [20] [] ⟨[], false, 5, 5, 21⟩
      (.withScan 5 [11] [21]) [21] [] ⟨[], false, 5, 5, 22⟩
      (.scanExpr 1 [22]) [22] 1 ⟨[], false, 5, 5, 23⟩
      rfl rfl rfl (Or.inl rfl) (by rfl) (by rfl) (by rfl)
      (by decide)).2.1 rfl,
   (updateDeletionCheck_except envC3 stC3 0 fkC3 childC3
      (.withScan 5 [10] [20]) [20] [] ⟨[], false, 5, 5, 21⟩
      (.withScan 5 [11] [21]) [21] [] ⟨[], false, 5, 5, 22⟩
      (.scanExpr 1 [22]) [22] 1 ⟨[], false, 5, 5, 23⟩
      rfl rfl rfl (Or.inl rfl) (by rfl) (by rfl) (by rfl)
      (by decide)).2.2
    [fun c => if c = 10 then some 5 else if c = 11 then some 5 else none]
    (fun c => if c = 10 then some 5 else if c = 11 then some 5 else none)
    (List.mem_singleton.mpr rfl) (by rfl)⟩

end MutationBuilder
